import Mathlib

set_option maxRecDepth 100000
set_option maxHeartbeats 4000000

/-!
Verification of the sigma-chess repository.

Subsystem A ("PythonChess"): a from-scratch rules engine in
`chess_logic.py` with constants in `constants.py`, plus minimax and
alpha-beta strategies in `ai_strategies/`.  Subsystem B
("chess_game && ui"): a second engine over two-character piece tags in
`board.py` / `pieces.py`.  Subsystem C ("code"): a toy
reinforcement-learning experiment in `minimax.py` over an external
rules library.

Each definition below is a direct translation of the corresponding
Python function.  Square indices are natural numbers 0..63
(index = rank * 8 + file, a1 = 0, h8 = 63); rank/file arithmetic that
can go negative is done in Int, mirroring Python int arithmetic, with
bounds guards before any conversion back to Nat, exactly where the
source guards.  Python list reads `self.board[i]` on in-range indices
are modelled by `List.getD i none`; writes by `List.set`.  Fallible
constructors and operations that raise ValueError are modelled with
Option / Except.
-/

namespace Chess

/-! ### constants.py -/

def WHITE : Nat := 0
def BLACK : Nat := 1

def PAWN : Nat := 1
def KNIGHT : Nat := 2
def BISHOP : Nat := 3
def ROOK : Nat := 4
def QUEEN : Nat := 5
def KING : Nat := 6

def PIECE_TYPES : List Nat := [PAWN, KNIGHT, BISHOP, ROOK, QUEEN, KING]

def NO_CASTLING : Nat := 0
def WHITE_KING_SIDE : Nat := 1
def WHITE_QUEEN_SIDE : Nat := 2
def BLACK_KING_SIDE : Nat := 4
def BLACK_QUEEN_SIDE : Nat := 8
def ALL_CASTLING : Nat := 15

def ONGOING : Nat := 0
def CHECKMATE : Nat := 1
def STALEMATE : Nat := 2
def INSUFFICIENT_MATERIAL : Nat := 3
def FIFTY_MOVE_RULE : Nat := 4
def THREEFOLD_REPETITION : Nat := 5
def DRAW_STATES : List Nat := [STALEMATE, INSUFFICIENT_MATERIAL, FIFTY_MOVE_RULE, THREEFOLD_REPETITION]

def NORMAL_MOVE : Nat := 0
def CAPTURE : Nat := 1
def EN_PASSANT : Nat := 2
def CASTLING : Nat := 3

def KNIGHT_MOVES : List (Int × Int) :=
  [(2, 1), (2, -1), (-2, 1), (-2, -1), (1, 2), (1, -2), (-1, 2), (-1, -2)]

def BISHOP_DIRECTIONS : List (Int × Int) := [(1, 1), (1, -1), (-1, 1), (-1, -1)]
def ROOK_DIRECTIONS : List (Int × Int) := [(1, 0), (-1, 0), (0, 1), (0, -1)]
def QUEEN_DIRECTIONS : List (Int × Int) := BISHOP_DIRECTIONS ++ ROOK_DIRECTIONS

def get_rank (index : Nat) : Nat := index / 8
def get_file (index : Nat) : Nat := index % 8

/-! ### chess_logic.py : Piece and Move -/

structure Piece where
  type : Nat
  color : Nat
deriving DecidableEq

/-- A move; equality in the source compares origin, destination and
promotion only, but list membership below iterates over generated
elements, for which full structural equality is the right notion. -/
structure Move where
  from_sq : Nat
  to_sq : Nat
  promotion : Option Nat := none
  flags : Nat := NORMAL_MOVE
deriving DecidableEq

def Move.is_capture (m : Move) : Bool :=
  m.flags == CAPTURE || m.flags == EN_PASSANT

/-! ### chess_logic.py : Board state -/

/-- One entry of the undo stack: (move, captured piece, prior castling
rights, prior en-passant target, prior half-move clock). -/
structure HistEntry where
  move : Move
  captured : Option Piece
  old_castling : Nat
  old_ep : Option Nat
  old_halfmove : Int
deriving DecidableEq

/-- The repetition fingerprint: piece placement, turn, castling rights
and en-passant target, excluding clocks. -/
structure PosKey where
  board : List (Option Piece)
  turn : Nat
  castling_rights : Nat
  en_passant_target : Option Nat
deriving DecidableEq

/-- Board state.  The position-repetition dict is modelled by its count
function: Python reads it only through `get(key, 0)`, increments, and
decrements with deletion at zero, so the count function captures every
observable behavior. -/
structure Board where
  board : List (Option Piece)
  turn : Nat
  castling_rights : Nat
  en_passant_target : Option Nat
  halfmove_clock : Int
  fullmove_number : Int
  history : List HistEntry
  position_history : PosKey → Nat

/-- Python `self.board[index]` for an in-range index. -/
def boardGet (l : List (Option Piece)) (i : Nat) : Option Piece :=
  l.getD i none

/-- Python `x & ~mask` on a non-negative int with `mask` a bit subset:
clearing the bits of `mask`, written without a bitwise complement. -/
def clearBits (x mask : Nat) : Nat := x - (x &&& mask)

def _get_position_hash (b : Board) : PosKey :=
  ⟨b.board, b.turn, b.castling_rights, b.en_passant_target⟩

def bumpCount (f : PosKey → Nat) (k : PosKey) : PosKey → Nat :=
  fun k2 => if k2 = k then f k2 + 1 else f k2

def dropCount (f : PosKey → Nat) (k : PosKey) : PosKey → Nat :=
  fun k2 => if k2 = k then f k2 - 1 else f k2

/-! ### chess_logic.py : make_move / unmake_move -/

/-- `Board.make_move`.  Returns `none` where Python raises ValueError
(no piece at the origin, or a piece of the side not to move). -/
def make_move (b : Board) (m : Move) : Option Board :=
  match boardGet b.board m.from_sq with
  | none => none
  | some piece =>
    if piece.color ≠ b.turn then none else
    let captured0 := boardGet b.board m.to_sq
    let old_castling := b.castling_rights
    let old_ep := b.en_passant_target
    let old_halfmove := b.halfmove_clock
    let bd1 := (b.board.set m.to_sq (some piece)).set m.from_sq none
    let is_pawn_move := piece.type = PAWN
    let is_capture := captured0.isSome ∨ m.flags = EN_PASSANT
    -- pawn double step: set the en-passant target one step behind the pawn
    let new_ep : Option Nat :=
      if piece.type = PAWN ∧ ((m.to_sq : Int) - (m.from_sq : Int)).natAbs = 16 then
        some (if piece.color = WHITE then m.from_sq + 8 else m.from_sq - 8)
      else none
    -- en-passant capture: remove the captured pawn next to the destination
    let epData : Option Piece × List (Option Piece) :=
      if m.flags = EN_PASSANT then
        let captured_pawn_sq := if piece.color = WHITE then m.to_sq - 8 else m.to_sq + 8
        (boardGet bd1 captured_pawn_sq, bd1.set captured_pawn_sq none)
      else (captured0, bd1)
    let captured := epData.1
    let bd2 := epData.2
    -- castling: move the rook
    let bd3 :=
      if m.flags = CASTLING then
        if m.to_sq = 6 then        -- g1, white king side
          (bd2.set 7 none).set 5 (boardGet bd2 7)
        else if m.to_sq = 2 then   -- c1, white queen side
          (bd2.set 0 none).set 3 (boardGet bd2 0)
        else if m.to_sq = 62 then  -- g8, black king side
          (bd2.set 63 none).set 61 (boardGet bd2 63)
        else if m.to_sq = 58 then  -- c8, black queen side
          (bd2.set 56 none).set 59 (boardGet bd2 56)
        else bd2
      else bd2
    -- promotion: replace the piece at the destination
    let bd4 :=
      match m.promotion with
      | some p => bd3.set m.to_sq (some ⟨p, piece.color⟩)
      | none => bd3
    -- castling rights: king moves
    let cr1 :=
      if piece.type = KING then
        if piece.color = WHITE then clearBits b.castling_rights (WHITE_KING_SIDE ||| WHITE_QUEEN_SIDE)
        else clearBits b.castling_rights (BLACK_KING_SIDE ||| BLACK_QUEEN_SIDE)
      else b.castling_rights
    -- castling rights: rook moves from, or any move onto, a corner
    let cr2 := if m.from_sq = 7 ∨ m.to_sq = 7 then clearBits cr1 WHITE_KING_SIDE else cr1
    let cr3 := if m.from_sq = 0 ∨ m.to_sq = 0 then clearBits cr2 WHITE_QUEEN_SIDE else cr2
    let cr4 := if m.from_sq = 63 ∨ m.to_sq = 63 then clearBits cr3 BLACK_KING_SIDE else cr3
    let cr5 := if m.from_sq = 56 ∨ m.to_sq = 56 then clearBits cr4 BLACK_QUEEN_SIDE else cr4
    -- castling rights: a rook captured on its starting square
    let cr9 :=
      match captured with
      | some cp =>
        if cp.type = ROOK then
          let cr6 := if m.to_sq = 7 then clearBits cr5 WHITE_KING_SIDE else cr5
          let cr7 := if m.to_sq = 0 then clearBits cr6 WHITE_QUEEN_SIDE else cr6
          let cr8 := if m.to_sq = 63 then clearBits cr7 BLACK_KING_SIDE else cr7
          if m.to_sq = 56 then clearBits cr8 BLACK_QUEEN_SIDE else cr8
        else cr5
      | none => cr5
    let halfmove' := if is_pawn_move ∨ is_capture then 0 else b.halfmove_clock + 1
    let fullmove' := if b.turn = BLACK then b.fullmove_number + 1 else b.fullmove_number
    let turn' := if b.turn = WHITE then BLACK else WHITE
    let hist := ({ move := m, captured := captured, old_castling := old_castling,
                   old_ep := old_ep, old_halfmove := old_halfmove } : HistEntry) :: b.history
    let b' : Board :=
      { board := bd4, turn := turn', castling_rights := cr9, en_passant_target := new_ep,
        halfmove_clock := halfmove', fullmove_number := fullmove',
        history := hist, position_history := b.position_history }
    some { b' with position_history := bumpCount b'.position_history (_get_position_hash b') }

/-- `Board.unmake_move`.  A no-op when the history is empty.  On boards
produced by `make_move` the destination square always holds the moved
piece; the impossible empty case is a no-op on the placement. -/
def unmake_move (b : Board) : Board :=
  match b.history with
  | [] => b
  | e :: rest =>
    let ph := dropCount b.position_history (_get_position_hash b)
    let turn' := if b.turn = WHITE then BLACK else WHITE
    let fullmove' := if turn' = BLACK then b.fullmove_number - 1 else b.fullmove_number
    let moved0 := boardGet b.board e.move.to_sq
    let moved : Option Piece :=
      match e.move.promotion with
      | some _ => moved0.map (fun q => ⟨PAWN, q.color⟩)
      | none => moved0
    let bd1 := (b.board.set e.move.from_sq moved).set e.move.to_sq e.captured
    -- en passant: the landing square was empty; the pawn goes back beside it
    let bd2 :=
      if e.move.flags = EN_PASSANT then
        match moved with
        | some q =>
          let captured_pawn_sq := if q.color = WHITE then e.move.to_sq - 8 else e.move.to_sq + 8
          (bd1.set e.move.to_sq none).set captured_pawn_sq e.captured
        | none => bd1
      else bd1
    -- castling: move the rook back
    let bd3 :=
      if e.move.flags = CASTLING then
        if e.move.to_sq = 6 then
          (bd2.set 5 none).set 7 (boardGet bd2 5)
        else if e.move.to_sq = 2 then
          (bd2.set 3 none).set 0 (boardGet bd2 3)
        else if e.move.to_sq = 62 then
          (bd2.set 61 none).set 63 (boardGet bd2 61)
        else if e.move.to_sq = 58 then
          (bd2.set 59 none).set 56 (boardGet bd2 59)
        else bd2
      else bd2
    { board := bd3, turn := turn', castling_rights := e.old_castling,
      en_passant_target := e.old_ep, halfmove_clock := e.old_halfmove,
      fullmove_number := fullmove', history := rest, position_history := ph }

/-! ### chess_logic.py : attack tests -/

/-- The inner ray walk of `is_attacked`: steps 1..7 in direction
(dr, df) from (target_rank, target_file); the first occupied square
stops the walk, hitting an attacker of a relevant sliding type. -/
def rayAttacked (bd : List (Option Piece)) (tr tf dr df : Int)
    (relevant : List Nat) (attacker_color : Nat) : List Int → Bool
  | [] => false
  | i :: rest =>
    let cr := tr + i * dr
    let cf := tf + i * df
    if 0 ≤ cr ∧ cr < 8 ∧ 0 ≤ cf ∧ cf < 8 then
      match boardGet bd (cr * 8 + cf).toNat with
      | some p => decide (p.color = attacker_color ∧ p.type ∈ relevant)
      | none => rayAttacked bd tr tf dr df relevant attacker_color rest
    else false

def intRange1to7 : List Int := [1, 2, 3, 4, 5, 6, 7]

/-- The 8 adjacent offsets, in the nested-loop order of the source with
(0, 0) skipped. -/
def kingOffsets : List (Int × Int) :=
  [(-1, -1), (-1, 0), (-1, 1), (0, -1), (0, 1), (1, -1), (1, 0), (1, 1)]

/-- `Board.is_attacked`. -/
def is_attacked (b : Board) (square_index : Nat) (attacker_color : Nat) : Bool :=
  let target_rank : Int := get_rank square_index
  let target_file : Int := get_file square_index
  let pawn_direction : Int := if attacker_color = WHITE then -1 else 1
  let pawnHit :=
    if 0 ≤ target_rank + pawn_direction ∧ target_rank + pawn_direction < 8 then
      ([-1, 1] : List Int).any fun file_offset =>
        let check_file := target_file + file_offset
        if 0 ≤ check_file ∧ check_file < 8 then
          match boardGet b.board ((target_rank + pawn_direction) * 8 + check_file).toNat with
          | some p => decide (p.type = PAWN ∧ p.color = attacker_color)
          | none => false
        else false
    else false
  let knightHit :=
    KNIGHT_MOVES.any fun d =>
      let cr := target_rank + d.1
      let cf := target_file + d.2
      if 0 ≤ cr ∧ cr < 8 ∧ 0 ≤ cf ∧ cf < 8 then
        match boardGet b.board (cr * 8 + cf).toNat with
        | some p => decide (p.type = KNIGHT ∧ p.color = attacker_color)
        | none => false
      else false
  let slideHit :=
    QUEEN_DIRECTIONS.any fun d =>
      let relevant := if d.1 = 0 ∨ d.2 = 0 then [ROOK, QUEEN] else [BISHOP, QUEEN]
      rayAttacked b.board target_rank target_file d.1 d.2 relevant attacker_color intRange1to7
  let kingHit :=
    kingOffsets.any fun d =>
      let cr := target_rank + d.1
      let cf := target_file + d.2
      if 0 ≤ cr ∧ cr < 8 ∧ 0 ≤ cf ∧ cf < 8 then
        match boardGet b.board (cr * 8 + cf).toNat with
        | some p => decide (p.type = KING ∧ p.color = attacker_color)
        | none => false
      else false
  pawnHit || knightHit || slideHit || kingHit

/-- `Board.find_king`: index of the first king of the color. -/
def find_king (b : Board) (color : Nat) : Option Nat :=
  b.board.findIdx? fun e =>
    match e with
    | some p => p.type == KING && p.color == color
    | none => false

/-- `Board.is_in_check`. -/
def is_in_check (b : Board) (color : Nat) : Bool :=
  match find_king b color with
  | none => false
  | some king_pos =>
    let opponent_color := if color = BLACK then WHITE else BLACK
    is_attacked b king_pos opponent_color

/-! ### chess_logic.py : pseudo-legal move generation -/

/-- Pawn moves from one square (pushes, promotions, captures,
en passant), exactly the pawn branch of `get_pseudo_legal_moves`. -/
def pawnMovesFrom (b : Board) (index : Nat) : List Move :=
  let current_player := b.turn
  let from_rank := get_rank index
  let from_file := get_file index
  let direction : Int := if current_player = WHITE then 1 else -1
  let start_rank := if current_player = WHITE then 1 else 6
  let forward :=
    let to_index : Int := (index : Int) + 8 * direction
    if 0 ≤ to_index ∧ to_index ≤ 63 then
      if boardGet b.board to_index.toNat = none then
        let to_sq := to_index.toNat
        let to_rank := get_rank to_sq
        let singles :=
          if to_rank = 7 ∨ to_rank = 0 then
            [QUEEN, ROOK, BISHOP, KNIGHT].map fun promo => { from_sq := index, to_sq := to_sq, promotion := some promo : Move }
          else [{ from_sq := index, to_sq := to_sq : Move }]
        let doubles :=
          if from_rank = start_rank then
            let to_index_double := ((index : Int) + 16 * direction).toNat
            if boardGet b.board to_index_double = none then
              [{ from_sq := index, to_sq := to_index_double : Move }]
            else []
          else []
        singles ++ doubles
      else []
    else []
  let captures :=
    ([-1, 1] : List Int).flatMap fun file_offset =>
      let to_file := (from_file : Int) + file_offset
      let to_rank := (from_rank : Int) + direction
      if 0 ≤ to_file ∧ to_file < 8 ∧ 0 ≤ to_rank ∧ to_rank < 8 then
        let to_sq := (to_rank * 8 + to_file).toNat
        match boardGet b.board to_sq with
        | some target =>
          if target.color ≠ current_player then
            if to_rank = 7 ∨ to_rank = 0 then
              [QUEEN, ROOK, BISHOP, KNIGHT].map fun promo =>
                { from_sq := index, to_sq := to_sq, promotion := some promo, flags := CAPTURE : Move }
            else [{ from_sq := index, to_sq := to_sq, flags := CAPTURE : Move }]
          else if b.en_passant_target = some to_sq then
            [{ from_sq := index, to_sq := to_sq, flags := EN_PASSANT : Move }]
          else []
        | none =>
          if b.en_passant_target = some to_sq then
            [{ from_sq := index, to_sq := to_sq, flags := EN_PASSANT : Move }]
          else []
      else []
  forward ++ captures

/-- Knight moves from one square. -/
def knightMovesFrom (b : Board) (index : Nat) : List Move :=
  let from_rank : Int := get_rank index
  let from_file : Int := get_file index
  KNIGHT_MOVES.flatMap fun d =>
    let to_rank := from_rank + d.1
    let to_file := from_file + d.2
    if 0 ≤ to_rank ∧ to_rank < 8 ∧ 0 ≤ to_file ∧ to_file < 8 then
      let to_sq := (to_rank * 8 + to_file).toNat
      match boardGet b.board to_sq with
      | none => [{ from_sq := index, to_sq := to_sq : Move }]
      | some target =>
        if target.color ≠ b.turn then [{ from_sq := index, to_sq := to_sq, flags := CAPTURE : Move }]
        else []
    else []

/-- One ray of sliding moves: steps 1..7 in a direction, stopping at
the board edge, at a friendly piece, or just after an enemy capture. -/
def scanRayMoves (b : Board) (index : Nat) (fr ff dr df : Int) : List Int → List Move
  | [] => []
  | i :: rest =>
    let to_rank := fr + i * dr
    let to_file := ff + i * df
    if 0 ≤ to_rank ∧ to_rank < 8 ∧ 0 ≤ to_file ∧ to_file < 8 then
      let to_sq := (to_rank * 8 + to_file).toNat
      match boardGet b.board to_sq with
      | none => { from_sq := index, to_sq := to_sq : Move } :: scanRayMoves b index fr ff dr df rest
      | some target =>
        if target.color ≠ b.turn then [{ from_sq := index, to_sq := to_sq, flags := CAPTURE : Move }]
        else []
    else []

/-- Bishop, rook and queen moves from one square. -/
def slidingMovesFrom (b : Board) (index : Nat) (ptype : Nat) : List Move :=
  let move_directions :=
    if ptype = BISHOP then BISHOP_DIRECTIONS
    else if ptype = ROOK then ROOK_DIRECTIONS
    else QUEEN_DIRECTIONS
  move_directions.flatMap fun d =>
    scanRayMoves b index (get_rank index) (get_file index) d.1 d.2 intRange1to7

/-- King moves from one square: the 8 adjacent squares plus the
castling offers, exactly the king branch of `get_pseudo_legal_moves`. -/
def kingMovesFrom (b : Board) (index : Nat) : List Move :=
  let current_player := b.turn
  let from_rank : Int := get_rank index
  let from_file : Int := get_file index
  let steps :=
    kingOffsets.flatMap fun d =>
      let to_rank := from_rank + d.1
      let to_file := from_file + d.2
      if 0 ≤ to_rank ∧ to_rank < 8 ∧ 0 ≤ to_file ∧ to_file < 8 then
        let to_sq := (to_rank * 8 + to_file).toNat
        match boardGet b.board to_sq with
        | none => [{ from_sq := index, to_sq := to_sq : Move }]
        | some target =>
          if target.color ≠ current_player then [{ from_sq := index, to_sq := to_sq, flags := CAPTURE : Move }]
          else []
      else []
  let opponent_color := if current_player = BLACK then WHITE else BLACK
  let castles :=
    if ¬ is_in_check b current_player then
      let kside :=
        if current_player = WHITE ∧ b.castling_rights &&& WHITE_KING_SIDE ≠ 0 then
          if boardGet b.board 5 = none ∧ boardGet b.board 6 = none ∧
              ¬ is_attacked b 4 opponent_color ∧ ¬ is_attacked b 5 opponent_color ∧
              ¬ is_attacked b 6 opponent_color then
            [{ from_sq := index, to_sq := 6, flags := CASTLING : Move }]
          else []
        else if current_player = BLACK ∧ b.castling_rights &&& BLACK_KING_SIDE ≠ 0 then
          if boardGet b.board 61 = none ∧ boardGet b.board 62 = none ∧
              ¬ is_attacked b 60 opponent_color ∧ ¬ is_attacked b 61 opponent_color ∧
              ¬ is_attacked b 62 opponent_color then
            [{ from_sq := index, to_sq := 62, flags := CASTLING : Move }]
          else []
        else []
      let qside :=
        if current_player = WHITE ∧ b.castling_rights &&& WHITE_QUEEN_SIDE ≠ 0 then
          if boardGet b.board 3 = none ∧ boardGet b.board 2 = none ∧ boardGet b.board 1 = none ∧
              ¬ is_attacked b 4 opponent_color ∧ ¬ is_attacked b 3 opponent_color ∧
              ¬ is_attacked b 2 opponent_color then
            [{ from_sq := index, to_sq := 2, flags := CASTLING : Move }]
          else []
        else if current_player = BLACK ∧ b.castling_rights &&& BLACK_QUEEN_SIDE ≠ 0 then
          if boardGet b.board 59 = none ∧ boardGet b.board 58 = none ∧ boardGet b.board 57 = none ∧
              ¬ is_attacked b 60 opponent_color ∧ ¬ is_attacked b 59 opponent_color ∧
              ¬ is_attacked b 58 opponent_color then
            [{ from_sq := index, to_sq := 58, flags := CASTLING : Move }]
          else []
        else []
      kside ++ qside
    else []
  steps ++ castles

/-- The candidate moves contributed by one square of the board. -/
def movesFrom (b : Board) (index : Nat) : List Move :=
  match boardGet b.board index with
  | none => []
  | some piece =>
    if piece.color = b.turn then
      if piece.type = PAWN then pawnMovesFrom b index
      else if piece.type = KNIGHT then knightMovesFrom b index
      else if piece.type = BISHOP ∨ piece.type = ROOK ∨ piece.type = QUEEN then
        slidingMovesFrom b index piece.type
      else if piece.type = KING then kingMovesFrom b index
      else []
    else []

/-- `Board.get_pseudo_legal_moves`. -/
def get_pseudo_legal_moves (b : Board) : List Move :=
  (List.range b.board.length).flatMap (movesFrom b)

/-- `Board.get_legal_moves`: a pseudo-legal move is kept when, once
applied, the mover is not left in check.  `make_move` always succeeds
on pseudo-legal moves (they originate from a square holding a piece of
the side to move); the impossible failure is rejected. -/
def get_legal_moves (b : Board) : List Move :=
  (get_pseudo_legal_moves b).filter fun m =>
    match make_move b m with
    | some b2 => ¬ is_in_check b2 b.turn
    | none => false

/-! ### chess_logic.py : terminal-state detection -/

def is_checkmate (b : Board) : Bool :=
  is_in_check b b.turn && (get_legal_moves b).length == 0

def is_stalemate (b : Board) : Bool :=
  !is_in_check b b.turn && (get_legal_moves b).length == 0

/-- Count of non-king pieces of one color and type on the board. -/
def pieceCount (b : Board) (color ptype : Nat) : Nat :=
  (b.board.filter fun e =>
    match e with
    | some p => p.type != KING && p.color == color && p.type == ptype
    | none => false).length

def has_pawns_or_majors (b : Board) (color : Nat) : Bool :=
  b.board.any fun e =>
    match e with
    | some p => p.type != KING && p.color == color &&
        (p.type == PAWN || p.type == ROOK || p.type == QUEEN)
    | none => false

/-- Square-color parities of the bishops of one color, in board order. -/
def bishopSquareColors (b : Board) (color : Nat) : List Nat :=
  (List.range b.board.length).filterMap fun index =>
    match boardGet b.board index with
    | some p =>
      if p.type = BISHOP ∧ p.color = color then some ((get_rank index + get_file index) % 2)
      else none
    | none => none

def countAllPieces (b : Board) (color : Nat) : Nat :=
  PIECE_TYPES.foldl (fun acc t => acc + pieceCount b color t) 0

/-- `Board.is_insufficient_material`. -/
def is_insufficient_material (b : Board) : Bool :=
  let w_pieces := countAllPieces b WHITE
  let b_pieces := countAllPieces b BLACK
  if w_pieces = 0 ∧ b_pieces = 0 then true
  else if w_pieces = 0 ∧ b_pieces = 1 ∧ pieceCount b BLACK KNIGHT = 1 then true
  else if b_pieces = 0 ∧ w_pieces = 1 ∧ pieceCount b WHITE KNIGHT = 1 then true
  else if w_pieces = 0 ∧ b_pieces = 1 ∧ pieceCount b BLACK BISHOP = 1 then true
  else if b_pieces = 0 ∧ w_pieces = 1 ∧ pieceCount b WHITE BISHOP = 1 then true
  else if !has_pawns_or_majors b WHITE && !has_pawns_or_majors b BLACK &&
      pieceCount b WHITE KNIGHT == 0 && pieceCount b BLACK KNIGHT == 0 then
    let all_bishops := bishopSquareColors b WHITE ++ bishopSquareColors b BLACK
    match all_bishops with
    | [] => false
    | first :: _ => all_bishops.all fun bc => bc == first
  else false

def is_fifty_move_rule (b : Board) : Bool :=
  b.halfmove_clock ≥ 100

def is_threefold_repetition (b : Board) : Bool :=
  b.position_history (_get_position_hash b) ≥ 3

/-- `Board.get_game_state`. -/
def get_game_state (b : Board) : Nat :=
  if is_checkmate b then CHECKMATE
  else if is_stalemate b then STALEMATE
  else if is_insufficient_material b then INSUFFICIENT_MATERIAL
  else if is_fifty_move_rule b then FIFTY_MOVE_RULE
  else if is_threefold_repetition b then THREEFOLD_REPETITION
  else ONGOING

def is_game_over (b : Board) : Bool :=
  get_game_state b ≠ ONGOING

/-- `Board.get_outcome`: the winner on checkmate, nothing otherwise. -/
def get_outcome (b : Board) : Option Nat :=
  let state := get_game_state b
  if state = CHECKMATE then some (if b.turn = WHITE then BLACK else WHITE)
  else if state ∈ DRAW_STATES then none
  else none

/-- The observable fields of a board: piece placement, turn, castling
rights, en-passant target, half-move clock and full-move number. -/
structure Observables where
  board : List (Option Piece)
  turn : Nat
  castling_rights : Nat
  en_passant_target : Option Nat
  halfmove_clock : Int
  fullmove_number : Int
deriving DecidableEq

def observables (b : Board) : Observables :=
  ⟨b.board, b.turn, b.castling_rights, b.en_passant_target,
   b.halfmove_clock, b.fullmove_number⟩

/-- The side to move is one of the two colors; true of every board the
source can construct. -/
def turnOK (b : Board) : Prop := b.turn = WHITE ∨ b.turn = BLACK

/-- The en-passant target square, when set, is empty.  True of every
position reached by play (a double push leaves the jumped square
empty) but not enforced by the FEN constructor. -/
def epTargetEmpty (b : Board) : Prop :=
  ∀ t, b.en_passant_target = some t → boardGet b.board t = none

/-- Castling rights are consistent with the king placement: a color
with a castling right still has its king on its home square.  True of
every position reached by play from a standard start but not enforced
by the FEN constructor. -/
def castlingRightsOK (b : Board) : Prop :=
  (b.castling_rights &&& WHITE_KING_SIDE ≠ 0 →
    ∀ i, boardGet b.board i = some ⟨KING, WHITE⟩ → i = 4) ∧
  (b.castling_rights &&& WHITE_QUEEN_SIDE ≠ 0 →
    ∀ i, boardGet b.board i = some ⟨KING, WHITE⟩ → i = 4) ∧
  (b.castling_rights &&& BLACK_KING_SIDE ≠ 0 →
    ∀ i, boardGet b.board i = some ⟨KING, BLACK⟩ → i = 60) ∧
  (b.castling_rights &&& BLACK_QUEEN_SIDE ≠ 0 →
    ∀ i, boardGet b.board i = some ⟨KING, BLACK⟩ → i = 60)


/-! ### constants.py : algebraic square names, and chess_logic.py : FEN parsing -/

def FILES : List Char := ['a', 'b', 'c', 'd', 'e', 'f', 'g', 'h']
def RANKS : List Char := ['1', '2', '3', '4', '5', '6', '7', '8']

/-- The two kinds of exception the FEN path can raise: ValueError
(raised and documented by the source) and IndexError (an out-of-range
board assignment in the placement loop). -/
inductive FenErr where
  | valueError (msg : String)
  | indexError
deriving DecidableEq

/-- `constants.square_to_index`: algebraic name to 0..63, ValueError on
a malformed name. -/
def square_to_index (sq_name : String) : Except FenErr Nat :=
  match sq_name.toList with
  | [f0, r0] =>
    let file := f0.toLower
    if file ∈ FILES ∧ r0 ∈ RANKS then
      Except.ok ((RANKS.indexOf r0) * 8 + FILES.indexOf file)
    else Except.error (.valueError "Invalid square name")
  | _ => Except.error (.valueError "Invalid square name")

/-- `constants.index_to_square`. -/
def index_to_square (index : Nat) : Except FenErr String :=
  if index ≤ 63 then
    Except.ok (String.mk [FILES.getD (get_file index) 'a', RANKS.getD (get_rank index) '1'])
  else Except.error (.valueError "Invalid square index")

/-- Python list assignment `l[i] = v`: a negative index wraps once from
the end, anything else out of range raises IndexError. -/
def pyListSet (l : List (Option Piece)) (i : Int) (v : Option Piece) :
    Except FenErr (List (Option Piece)) :=
  if 0 ≤ i then
    if i < (l.length : Int) then Except.ok (l.set i.toNat v)
    else Except.error .indexError
  else
    if 0 ≤ (l.length : Int) + i then Except.ok (l.set ((l.length : Int) + i).toNat v)
    else Except.error .indexError

def pieceOfChar (c : Char) : Option Nat :=
  if c.toLower = 'p' then some PAWN
  else if c.toLower = 'n' then some KNIGHT
  else if c.toLower = 'b' then some BISHOP
  else if c.toLower = 'r' then some ROOK
  else if c.toLower = 'q' then some QUEEN
  else if c.toLower = 'k' then some KING
  else none

/-- The placement loop of `_setup_from_fen`: rank 7 down to 0, `/` to
drop a rank, a digit to skip files, a letter to place a piece. -/
def parseBoardChars : List Char → Int → Int → List (Option Piece) →
    Except FenErr (List (Option Piece))
  | [], _, _, bd => Except.ok bd
  | c :: rest, rank, file, bd =>
    if c = '/' then parseBoardChars rest (rank - 1) 0 bd
    else if c.isDigit then parseBoardChars rest rank (file + (c.toNat - 48)) bd
    else
      match pieceOfChar c with
      | none => Except.error (.valueError "Invalid piece character in FEN")
      | some piece_type =>
        let color := if c.isUpper then WHITE else BLACK
        match pyListSet bd (rank * 8 + file) (some ⟨piece_type, color⟩) with
        | Except.ok bd2 => parseBoardChars rest rank (file + 1) bd2
        | Except.error e => Except.error e

def isPySpace (c : Char) : Bool :=
  c = ' ' || c = '\t' || c = '\n' || c = '\r' || c = '\x0b' || c = '\x0c'

/-- Digit run with single underscores between ASCII digits, the tail of
the base-10 grammar of Python `int`. -/
def digitsVal : List Char → Nat → Option Nat
  | [], acc => some acc
  | c :: rest, acc =>
    if c.isDigit then digitsVal rest (acc * 10 + (c.toNat - 48))
    else if c = '_' then
      match rest with
      | d :: rest2 =>
        if d.isDigit then digitsVal rest2 (acc * 10 + (d.toNat - 48)) else none
      | [] => none
    else none

/-- Python `int(s)` for base 10 and ASCII digits: optional surrounding
whitespace, optional sign, digits with single underscores between. -/
def pyInt (s : String) : Option Int :=
  let cs := ((s.toList.dropWhile isPySpace).reverse.dropWhile isPySpace).reverse
  match cs with
  | '+' :: c :: rest =>
    if c.isDigit then (digitsVal rest (c.toNat - 48)).map Int.ofNat else none
  | '-' :: c :: rest =>
    if c.isDigit then (digitsVal rest (c.toNat - 48)).map (fun n => -(n : Int)) else none
  | c :: rest =>
    if c.isDigit then (digitsVal rest (c.toNat - 48)).map Int.ofNat else none
  | [] => none

/-- Python `s.split(' ')`: split at every single space, keeping empty
parts, written structurally so that proofs can evaluate it. -/
def pySplitSpace : List Char → List Char → List String
  | [], acc => [String.mk acc.reverse]
  | c :: rest, acc =>
    if c = ' ' then String.mk acc.reverse :: pySplitSpace rest []
    else pySplitSpace rest (c :: acc)

/-- `Board._setup_from_fen`, field by field and in source order. -/
def _setup_from_fen (fen : String) : Except FenErr Board :=
  let parts := pySplitSpace fen.toList []
  if parts.length ≠ 6 then Except.error (.valueError "Invalid FEN string: must have 6 parts")
  else
    match parseBoardChars (parts.getD 0 "").toList 7 0 (List.replicate 64 none) with
    | Except.error e => Except.error e
    | Except.ok bd =>
      let turn := if parts.getD 1 "" = "w" then WHITE else BLACK
      let p2 := parts.getD 2 ""
      let p3 := parts.getD 3 ""
      -- the source reads king-side and queen-side black rights from the
      -- en-passant field first, then again from the castling field
      let cr1 := if p2.toList.contains 'K' then NO_CASTLING ||| WHITE_KING_SIDE else NO_CASTLING
      let cr2 := if p2.toList.contains 'Q' then cr1 ||| WHITE_QUEEN_SIDE else cr1
      let cr3 := if p3.toList.contains 'k' then cr2 ||| BLACK_KING_SIDE else cr2
      let cr4 := if p3.toList.contains 'q' then cr3 ||| BLACK_QUEEN_SIDE else cr3
      let cr5 := if p2.toList.contains 'k' then cr4 ||| BLACK_KING_SIDE else cr4
      let cr6 := if p2.toList.contains 'q' then cr5 ||| BLACK_QUEEN_SIDE else cr5
      let epRes : Except FenErr (Option Nat) :=
        if p3 ≠ "-" then
          match square_to_index p3 with
          | Except.ok i => Except.ok (some i)
          | Except.error _ =>
            Except.error (.valueError "Invalid en passant target square in FEN")
        else Except.ok none
      match epRes with
      | Except.error e => Except.error e
      | Except.ok ep =>
        match pyInt (parts.getD 4 "") with
        | none => Except.error (.valueError "Invalid halfmove clock in FEN")
        | some halfmove =>
          match pyInt (parts.getD 5 "") with
          | none => Except.error (.valueError "Invalid fullmove number in FEN")
          | some fullmove =>
            Except.ok
              { board := bd, turn := turn, castling_rights := cr6,
                en_passant_target := ep, halfmove_clock := halfmove,
                fullmove_number := fullmove, history := [],
                position_history := fun _ => 0 }

def STARTING_FEN : String := "rnbqkbnr/pppppppp/8/8/8/8/PPPPPPPP/RNBQKBNR w KQkq - 0 1"

/-- `Board.__init__`: parse the FEN, then record the initial position
in the repetition table. -/
def mkBoard (fen : String) : Except FenErr Board :=
  (_setup_from_fen fen).map fun b =>
    { b with position_history := bumpCount b.position_history (_get_position_hash b) }

/-! ### Concrete positions used by the claim theorems -/

def fallbackBoard : Board :=
  { board := List.replicate 64 none, turn := WHITE, castling_rights := NO_CASTLING,
    en_passant_target := none, halfmove_clock := 0, fullmove_number := 1,
    history := [], position_history := fun _ => 0 }

/-- The board `Board()` builds: the default starting FEN, parsed. -/
def startBoard : Board :=
  match mkBoard STARTING_FEN with
  | Except.ok b => b
  | Except.error _ => fallbackBoard

def e2e4Move : Move := { from_sq := 12, to_sq := 28 }

/-- A syntactically well-formed FEN whose en-passant target square e3
holds a black knight, with a black pawn on d4 able to take it en
passant: black king a1, black knight e3, black pawn d4, white king h1,
Black to move.  The pawn on d4 (index 27) is the highest-indexed black
piece and the en-passant capture is the last move its generation
appends, so this capture is the final entry of the pseudo-legal move
list and the last move the legality filter tests. -/
def EP_WEIRD_FEN : String := "8/8/8/8/3p4/4n3/8/k6K b - e3 0 1"

def epWeirdBoard : Board :=
  match mkBoard EP_WEIRD_FEN with
  | Except.ok b => b
  | Except.error _ => fallbackBoard

def epWeirdMove : Move := { from_sq := 27, to_sq := 20, promotion := none, flags := EN_PASSANT }

/-- The legality filter exactly as `get_legal_moves` executes it: the
moves are tested on the LIVE board, each `make_move` mutating it and
each `unmake_move` reverting it in place, so any corruption left by an
inexact unmake is visible to every later iteration.  A `make_move`
failure is the ValueError that would abort the loop, returned as
`none`.  The result carries the final board alongside the kept moves. -/
def legalFilterLive (player : Nat) : List Move → Board → Option (List Move × Board)
  | [], b => some ([], b)
  | m :: rest, b =>
    match make_move b m with
    | none => none
    | some b2 =>
      let keep := !(is_in_check b2 player)
      match legalFilterLive player rest (unmake_move b2) with
      | none => none
      | some (ms, bf) => some ((if keep then m :: ms else ms), bf)

/-- `Board.get_legal_moves` run with the in-place mutation of the
source: `none` when the loop raises mid-filter. -/
def get_legal_moves_live (b : Board) : Option (List Move × Board) :=
  legalFilterLive b.turn (get_pseudo_legal_moves b) b

/-- The terminal-state priority cascade exactly as the specification
words it: Checkmate (side to move in check, zero legal moves), then
Stalemate (not in check, zero legal moves), then insufficient
material, then the fifty-move rule (half-move clock at least 100),
then threefold repetition (current fingerprint count at least 3),
else ongoing. -/
def gameStateSpec (b : Board) : Nat :=
  if is_in_check b b.turn = true ∧ (get_legal_moves b).length = 0 then CHECKMATE
  else if is_in_check b b.turn = false ∧ (get_legal_moves b).length = 0 then STALEMATE
  else if is_insufficient_material b = true then INSUFFICIENT_MATERIAL
  else if 100 ≤ b.halfmove_clock then FIFTY_MOVE_RULE
  else if 3 ≤ b.position_history (_get_position_hash b) then THREEFOLD_REPETITION
  else ONGOING

/-! ### ai_strategies/ai_minimax.py and ai_alphabeta.py -/

/-- Scores as the search functions handle them: ordinary ints together
with the float infinities used to seed `max_eval`, `min_eval`, `alpha`
and `beta`. -/
abbrev EInt := WithBot (WithTop Int)

/-- `PIECE_VALUES.get(t, 0)`; the table is identical in the minimax and
alpha-beta modules. -/
def PIECE_VALUES (t : Nat) : Int :=
  if t = PAWN then 100
  else if t = KNIGHT then 320
  else if t = BISHOP then 330
  else if t = ROOK then 500
  else if t = QUEEN then 900
  else if t = KING then 20000
  else 0

def MATE_SCORE : Int := 100000
def DRAW_SCORE : Int := 0

def material_score (b : Board) : Int :=
  b.board.foldl
    (fun acc e =>
      match e with
      | some piece =>
        if piece.color = WHITE then acc + PIECE_VALUES piece.type
        else acc - PIECE_VALUES piece.type
      | none => acc)
    0

/-- `evaluate_board`, byte-for-byte identical in `ai_minimax.py` and
`ai_alphabeta.py`. -/
def evaluate_board (b : Board) : Int :=
  let game_state := get_game_state b
  if game_state ≠ 0 then
    if game_state = CHECKMATE then
      if b.turn = WHITE then -MATE_SCORE else MATE_SCORE
    else if game_state = STALEMATE ∨ game_state = 3 ∨ game_state = 4 ∨ game_state = 5 then
      DRAW_SCORE
    else material_score b
  else material_score b

/-- The child position a search step recurses into; `make_move` cannot
fail on a legal move, so the fallback is never taken. -/
def childBoard (b : Board) (mv : Move) : Board :=
  (make_move b mv).getD b

/-- The maximizing loop of `minimax`: strict improvement updates the
best score and best move. -/
def mmMaxLoop (child : Move → EInt) : List Move → EInt → Option Move → EInt × Option Move
  | [], best, bm => (best, bm)
  | mv :: rest, best, bm =>
    let s := child mv
    if best < s then mmMaxLoop child rest s (some mv)
    else mmMaxLoop child rest best bm

/-- The minimizing loop of `minimax`. -/
def mmMinLoop (child : Move → EInt) : List Move → EInt → Option Move → EInt × Option Move
  | [], best, bm => (best, bm)
  | mv :: rest, best, bm =>
    let s := child mv
    if s < best then mmMinLoop child rest s (some mv)
    else mmMinLoop child rest best bm

/-- `minimax` of `ai_minimax.py`. -/
def minimax (b : Board) (depth : Nat) (maximizing_player : Bool) : EInt × Option Move :=
  match depth with
  | 0 => (((evaluate_board b : WithTop Int) : EInt), none)
  | d + 1 =>
    if is_game_over b then (((evaluate_board b : WithTop Int) : EInt), none)
    else
      let legal_moves := get_legal_moves b
      if legal_moves = [] then (((evaluate_board b : WithTop Int) : EInt), none)
      else if maximizing_player then
        mmMaxLoop (fun mv => (minimax (childBoard b mv) d false).1) legal_moves ⊥ none
      else
        mmMinLoop (fun mv => (minimax (childBoard b mv) d true).1) legal_moves ⊤ none

/-- The maximizing loop of `alphabeta`: update the best score and move,
then raise `alpha`, then break when `beta ≤ alpha`. -/
def abMaxLoop (child : Move → EInt → EInt → EInt) :
    List Move → EInt → Option Move → EInt → EInt → EInt × Option Move
  | [], best, bm, _, _ => (best, bm)
  | mv :: rest, best, bm, alpha, beta =>
    let s := child mv alpha beta
    let acc := if best < s then (s, some mv) else (best, bm)
    let alpha2 := max alpha s
    if beta ≤ alpha2 then acc
    else abMaxLoop child rest acc.1 acc.2 alpha2 beta

/-- The minimizing loop of `alphabeta`. -/
def abMinLoop (child : Move → EInt → EInt → EInt) :
    List Move → EInt → Option Move → EInt → EInt → EInt × Option Move
  | [], best, bm, _, _ => (best, bm)
  | mv :: rest, best, bm, alpha, beta =>
    let s := child mv alpha beta
    let acc := if s < best then (s, some mv) else (best, bm)
    let beta2 := min beta s
    if beta2 ≤ alpha then acc
    else abMinLoop child rest acc.1 acc.2 alpha beta2

/-- `sorted(legal_moves, key=lambda m: m.is_capture(), reverse=True)`:
Python sorting is stable, so captures keep their order and come first,
followed by the non-captures in their order. -/
def orderCapturesFirst (legal_moves : List Move) : List Move :=
  legal_moves.filter (fun m => m.is_capture) ++ legal_moves.filter (fun m => !m.is_capture)

/-- `alphabeta` of `ai_alphabeta.py`. -/
def alphabeta (b : Board) (depth : Nat) (alpha beta : EInt) (maximizing_player : Bool) :
    EInt × Option Move :=
  match depth with
  | 0 => (((evaluate_board b : WithTop Int) : EInt), none)
  | d + 1 =>
    if is_game_over b then (((evaluate_board b : WithTop Int) : EInt), none)
    else
      let legal_moves := get_legal_moves b
      if legal_moves = [] then (((evaluate_board b : WithTop Int) : EInt), none)
      else
        let ordered_moves := orderCapturesFirst legal_moves
        if maximizing_player then
          abMaxLoop (fun mv a bt => (alphabeta (childBoard b mv) d a bt false).1)
            ordered_moves ⊥ none alpha beta
        else
          abMinLoop (fun mv a bt => (alphabeta (childBoard b mv) d a bt true).1)
            ordered_moves ⊤ none alpha beta

/-! ### Verification-side predicates about generated moves -/

/-- The fail-soft alpha-beta relation between a true score `v` and a
returned score `r` for a window `(alpha, beta)`: a fail-low result
bounds `v` from above, a fail-high result bounds it from below, and a
result inside the window is exact. -/
def KM (v r alpha beta : EInt) : Prop :=
  (r ≤ alpha → v ≤ r) ∧ (beta ≤ r → r ≤ v) ∧ (alpha < r → r < beta → r = v)



/-- Facts about every pawn move that the restoration and en-passant
theorems need. -/
def PawnFacts (b : Board) (index : Nat) (m : Move) : Prop :=
  m.from_sq = index ∧ m.to_sq < 64 ∧ m.to_sq ≠ index ∧ m.flags ≠ CASTLING ∧
  (m.flags = EN_PASSANT → m.promotion = none ∧ b.en_passant_target = some m.to_sq ∧
    (b.turn = WHITE → 8 ≤ m.to_sq ∧ m.to_sq - 8 ≠ index) ∧
    (b.turn ≠ WHITE → m.to_sq + 8 < 64 ∧ m.to_sq + 8 ≠ index)) ∧
  (((m.to_sq : Int) - (index : Int)).natAbs = 16 →
    (b.turn = WHITE → m.to_sq = index + 16) ∧ (b.turn ≠ WHITE → index = m.to_sq + 16))

/-- Facts shared by knight, sliding and plain king moves. -/
def SimpleFacts (index : Nat) (m : Move) : Prop :=
  m.from_sq = index ∧ m.to_sq < 64 ∧ m.to_sq ≠ index ∧ m.promotion = none ∧
  m.flags ≠ CASTLING ∧ m.flags ≠ EN_PASSANT

/-- What a generated castling move guarantees: the destination, the
mover, the relevant castling right, and the emptiness of the squares
between king and rook that the generator checked. -/
def CastleShape (b : Board) (m : Move) : Prop :=
  (m.to_sq = 6 ∧ b.turn = WHITE ∧ b.castling_rights &&& WHITE_KING_SIDE ≠ 0 ∧
     boardGet b.board 5 = none ∧ boardGet b.board 6 = none) ∨
  (m.to_sq = 2 ∧ b.turn = WHITE ∧ b.castling_rights &&& WHITE_QUEEN_SIDE ≠ 0 ∧
     boardGet b.board 3 = none ∧ boardGet b.board 2 = none ∧ boardGet b.board 1 = none) ∨
  (m.to_sq = 62 ∧ b.turn = BLACK ∧ b.castling_rights &&& BLACK_KING_SIDE ≠ 0 ∧
     boardGet b.board 61 = none ∧ boardGet b.board 62 = none) ∨
  (m.to_sq = 58 ∧ b.turn = BLACK ∧ b.castling_rights &&& BLACK_QUEEN_SIDE ≠ 0 ∧
     boardGet b.board 59 = none ∧ boardGet b.board 58 = none ∧ boardGet b.board 57 = none)

/-- Everything the restoration and en-passant theorems need to know
about a pseudo-legal move. -/
def MoveFacts (b : Board) (m : Move) : Prop :=
  ∃ piece, boardGet b.board m.from_sq = some piece ∧ piece.color = b.turn ∧
    m.from_sq < 64 ∧ m.to_sq < 64 ∧ m.to_sq ≠ m.from_sq ∧
    (m.promotion ≠ none → piece.type = PAWN) ∧
    (m.flags = EN_PASSANT → piece.type = PAWN ∧ m.promotion = none ∧
      b.en_passant_target = some m.to_sq ∧
      (piece.color = WHITE → 8 ≤ m.to_sq ∧ m.to_sq - 8 ≠ m.from_sq) ∧
      (piece.color ≠ WHITE → m.to_sq + 8 < 64 ∧ m.to_sq + 8 ≠ m.from_sq)) ∧
    (m.flags = CASTLING → piece.type = KING ∧ m.promotion = none ∧ CastleShape b m) ∧
    (piece.type = PAWN → ((m.to_sq : Int) - (m.from_sq : Int)).natAbs = 16 →
      (piece.color = WHITE → m.to_sq = m.from_sq + 16) ∧
      (piece.color ≠ WHITE → m.from_sq = m.to_sq + 16))

/-- A score that is a finite integer: neither bottom nor top. -/
def FiniteE (x : EInt) : Prop := ∃ z : Int, x = ((z : WithTop Int) : EInt)

/-- The piece placement the starting FEN describes, square by square. -/
def startPlacement : List (Option Piece) :=
  [some ⟨ROOK, WHITE⟩, some ⟨KNIGHT, WHITE⟩, some ⟨BISHOP, WHITE⟩, some ⟨QUEEN, WHITE⟩,
   some ⟨KING, WHITE⟩, some ⟨BISHOP, WHITE⟩, some ⟨KNIGHT, WHITE⟩, some ⟨ROOK, WHITE⟩] ++
  List.replicate 8 (some ⟨PAWN, WHITE⟩) ++ List.replicate 32 none ++
  List.replicate 8 (some ⟨PAWN, BLACK⟩) ++
  [some ⟨ROOK, BLACK⟩, some ⟨KNIGHT, BLACK⟩, some ⟨BISHOP, BLACK⟩, some ⟨QUEEN, BLACK⟩,
   some ⟨KING, BLACK⟩, some ⟨BISHOP, BLACK⟩, some ⟨KNIGHT, BLACK⟩, some ⟨ROOK, BLACK⟩]

/-! Reinforcement-learning experiment of code of minimax.py: the Q-learning
agent and the action decoding of its chess environment. -/

def rl_epsilon_decay : ℚ := 995 / 1000

def rl_epsilon_min : ℚ := 1 / 100

def rl_gamma : ℚ := 99 / 100

def rl_learning_rate : ℚ := 1 / 10

def rl_action_size : Nat := 218

/-- One transition fed to SimpleChessAgent.learn by the training loop. -/
structure StepData where
  state_index : Nat
  action : Nat
  reward : ℚ
  next_state_index : Nat
  done : Bool

/-- The mutable fields of SimpleChessAgent that learn touches. -/
structure Agent where
  q_table : Nat → Nat → ℚ
  epsilon : ℚ

/-- np.argmax over the first n entries of a row: the first index holding
the maximum. -/
def argmaxQ (row : Nat → ℚ) (n : Nat) : Nat :=
  (List.range n).foldl (fun best i => if row best < row i then i else best) 0

/-- SimpleChessAgent.learn: the Q update followed by the epsilon decay. -/
def learn (ag : Agent) (s : StepData) : Agent :=
  let best_next_action := argmaxQ (ag.q_table s.next_state_index) rl_action_size
  let td_target := s.reward +
    rl_gamma * ag.q_table s.next_state_index best_next_action * (if s.done then 0 else 1)
  let td_error := td_target - ag.q_table s.state_index s.action
  { q_table := fun i j =>
      if i = s.state_index ∧ j = s.action then ag.q_table i j + rl_learning_rate * td_error
      else ag.q_table i j,
    epsilon := if rl_epsilon_min < ag.epsilon then ag.epsilon * rl_epsilon_decay
      else ag.epsilon }

/-- SimpleChessAgent.__init__: zero Q table, epsilon 1.0. -/
def initAgent : Agent := { q_table := fun _ _ => 0, epsilon := 1 }

/-- One episode of train_chess_ai: the inner while loop calls learn once
per environment step. -/
def runEpisode (ag : Agent) (steps : List StepData) : Agent :=
  steps.foldl learn ag

/-- ChessEnvironment._action_to_move: moves[action % len(moves)], with
Python % (sign of the divisor) and the empty list left without a value. -/
def _action_to_move {α : Type} (moves : List α) (action : Int) : Option α :=
  match moves with
  | [] => none
  | m :: rest => some ((m :: rest).getD ((action % (((m :: rest).length : Nat) : Int)).toNat) m)

/-- The guard of the illegal-action branch of ChessEnvironment.step:
true exactly when step would return reward -10 and end the episode. -/
def stepIllegalBranch {α : Type} [DecidableEq α] (moves : List α) (action : Int) : Bool :=
  match _action_to_move moves action with
  | none => true
  | some mv => !(moves.contains mv)

namespace B

/-! Subsystem B: the pygame chessboard of board.py and pieces.py.
Positions are (row, column) pairs of integers, pieces are two-character
tags such as "wK", colors are the strings "white" and "black". -/

/-- Python s[i] on the short strings this subsystem indexes. -/
def pyChar (s : String) (i : Nat) : Char :=
  s.toList.getD i '?'

/-- One color entry of the castling_rights dictionary. -/
structure CastlingRights where
  king_moved : Bool
  left_rook_moved : Bool
  right_rook_moved : Bool
deriving DecidableEq

/-- The fields of the ChessBoard class. -/
structure ChessBoard where
  board : List (List (Option String))
  current_turn : String
  move_log : List ((Int × Int) × (Int × Int))
  white_king_pos : Int × Int
  black_king_pos : Int × Int
  white_rights : CastlingRights
  black_rights : CastlingRights
  en_passant_target : Option (Int × Int)

/-- The castling_rights entry for a color. -/
def rightsOf (bb : ChessBoard) (color : String) : CastlingRights :=
  if color = "white" then bb.white_rights else bb.black_rights

/-- Raw Python indexing board[r][c], used by the class on positions it
assumes are on the board. -/
def boardRead (bd : List (List (Option String))) (pos : Int × Int) : Option String :=
  (bd.getD pos.1.toNat []).getD pos.2.toNat none

/-- Writing board[r][c] = v at an on-board position. -/
def boardWrite (bd : List (List (Option String))) (pos : Int × Int) (v : Option String) :
    List (List (Option String)) :=
  bd.set pos.1.toNat ((bd.getD pos.1.toNat []).set pos.2.toNat v)

/-- ChessBoard.get_piece_at: the bounds-checked read. -/
def get_piece_at (bd : List (List (Option String))) (pos : Int × Int) : Option String :=
  if 0 ≤ pos.1 ∧ pos.1 < 8 ∧ 0 ≤ pos.2 ∧ pos.2 < 8 then boardRead bd pos else none

def onBoard (pos : Int × Int) : Prop :=
  0 ≤ pos.1 ∧ pos.1 < 8 ∧ 0 ≤ pos.2 ∧ pos.2 < 8

instance (pos : Int × Int) : Decidable (onBoard pos) := by
  unfold onBoard; infer_instance

/-- target and target[0] != c0, through the bounds-checked read. -/
def isOppPiece (bd : List (List (Option String))) (c0 : Char) (q : Int × Int) : Bool :=
  match get_piece_at bd q with
  | some t => pyChar t 0 != c0
  | none => false

/-- Pawn.get_valid_moves. -/
def pawnValidMoves (bb : ChessBoard) (color : String) (pos : Int × Int) :
    List (Int × Int) :=
  let row := pos.1
  let col := pos.2
  let direction : Int := if color = "black" then 1 else -1
  let forward : List (Int × Int) :=
    if get_piece_at bb.board (row + direction, col) = none then
      (row + direction, col) ::
        (if ((color = "white" ∧ row = 6) ∨ (color = "black" ∧ row = 1)) ∧
            get_piece_at bb.board (row + 2 * direction, col) = none then
          [(row + 2 * direction, col)]
        else [])
    else []
  let capture : Int → List (Int × Int) := fun dc =>
    let q : Int × Int := (row + direction, col + dc)
    (if onBoard q ∧ isOppPiece bb.board (pyChar color 0) q = true then [q] else []) ++
    (if bb.en_passant_target = some q then [q] else [])
  forward ++ capture (-1) ++ capture 1

/-- One direction of a rook, bishop or queen scan: step through empty
squares, stop at the edge, a capture square, or a friendly piece. -/
def scanRayB (bd : List (List (Option String))) (c0 : Char) (pos d : Int × Int) :
    Nat → List (Int × Int)
  | 0 => []
  | steps + 1 =>
    let q : Int × Int := (pos.1 + d.1, pos.2 + d.2)
    if onBoard q then
      match get_piece_at bd q with
      | none => q :: scanRayB bd c0 q d steps
      | some t => if pyChar t 0 ≠ c0 then [q] else []
    else []

/-- Rook.get_valid_moves. -/
def rookValidMoves (bb : ChessBoard) (color : String) (pos : Int × Int) :
    List (Int × Int) :=
  [((-1 : Int), (0 : Int)), (1, 0), (0, -1), (0, 1)].flatMap
    (fun d => scanRayB bb.board (pyChar color 0) pos d 7)

/-- Bishop.get_valid_moves. -/
def bishopValidMoves (bb : ChessBoard) (color : String) (pos : Int × Int) :
    List (Int × Int) :=
  [((-1 : Int), (-1 : Int)), (-1, 1), (1, -1), (1, 1)].flatMap
    (fun d => scanRayB bb.board (pyChar color 0) pos d 7)

/-- Queen.get_valid_moves: the rook scan followed by the bishop scan. -/
def queenValidMoves (bb : ChessBoard) (color : String) (pos : Int × Int) :
    List (Int × Int) :=
  rookValidMoves bb color pos ++ bishopValidMoves bb color pos

/-- Knight.get_valid_moves. -/
def knightValidMoves (bb : ChessBoard) (color : String) (pos : Int × Int) :
    List (Int × Int) :=
  [((-2 : Int), (-1 : Int)), (-2, 1), (-1, -2), (-1, 2), (1, -2), (1, 2), (2, -1), (2, 1)].flatMap
    (fun d =>
      let q : Int × Int := (pos.1 + d.1, pos.2 + d.2)
      if onBoard q then
        match get_piece_at bb.board q with
        | none => [q]
        | some t => if pyChar t 0 ≠ pyChar color 0 then [q] else []
      else [])

/-- King.get_valid_moves: the eight neighbors, then the castling
destinations gated only on the moved flags and empty between squares. -/
def kingValidMoves (bb : ChessBoard) (color : String) (pos : Int × Int) :
    List (Int × Int) :=
  let row := pos.1
  let base :=
    [((-1 : Int), (-1 : Int)), (-1, 0), (-1, 1), (0, -1), (0, 1), (1, -1), (1, 0), (1, 1)].flatMap
      (fun d =>
        let q : Int × Int := (pos.1 + d.1, pos.2 + d.2)
        if onBoard q then
          match get_piece_at bb.board q with
          | none => [q]
          | some t => if pyChar t 0 ≠ pyChar color 0 then [q] else []
        else [])
  let castles :=
    if (rightsOf bb color).king_moved = false then
      (if (rightsOf bb color).right_rook_moved = false ∧
          get_piece_at bb.board (row, 5) = none ∧ get_piece_at bb.board (row, 6) = none then
        [(row, (6 : Int))] else []) ++
      (if (rightsOf bb color).left_rook_moved = false ∧
          get_piece_at bb.board (row, 1) = none ∧ get_piece_at bb.board (row, 2) = none ∧
          get_piece_at bb.board (row, 3) = none then
        [(row, (2 : Int))] else [])
    else []
  base ++ castles

/-- create_piece followed by get_valid_moves, by piece letter. -/
def get_valid_moves (bb : ChessBoard) (color : String) (t : Char) (pos : Int × Int) :
    List (Int × Int) :=
  if t = 'P' then pawnValidMoves bb color pos
  else if t = 'R' then rookValidMoves bb color pos
  else if t = 'N' then knightValidMoves bb color pos
  else if t = 'B' then bishopValidMoves bb color pos
  else if t = 'Q' then queenValidMoves bb color pos
  else if t = 'K' then kingValidMoves bb color pos
  else []

/-- ChessBoard.is_in_check: scan every square for an opponent piece whose
valid moves contain the TRACKED king position of the given color. -/
def is_in_check (bb : ChessBoard) (color : String) : Bool :=
  let king_pos := if color = "white" then bb.white_king_pos else bb.black_king_pos
  let opponent := if color = "white" then "black" else "white"
  (List.range 8).any fun r =>
    (List.range 8).any fun c =>
      match get_piece_at bb.board ((r : Int), (c : Int)) with
      | some t =>
        pyChar t 0 = pyChar opponent 0 &&
          (get_valid_moves bb opponent (pyChar t 1) ((r : Int), (c : Int))).contains king_pos
      | none => false

/-- ChessBoard.is_valid_move: the basic rejections, then the speculative
move; the computed king_pos local of the source is dead, so the check
uses the stale tracked king position. -/
def is_valid_move (bb : ChessBoard) (start_pos end_pos : Int × Int) : Bool :=
  match boardRead bb.board start_pos with
  | none => false
  | some piece =>
    if (bb.current_turn = "white" ∧ pyChar piece 0 ≠ 'w') ∨
        (bb.current_turn = "black" ∧ pyChar piece 0 ≠ 'b') then false
    else if ¬ onBoard end_pos then false
    else if (match boardRead bb.board end_pos with
             | some t => pyChar t 0 == pyChar piece 0
             | none => false : Bool) then false
    else
      let bd2 := boardWrite (boardWrite bb.board end_pos (some piece)) start_pos none
      !(is_in_check { bb with board := bd2 } bb.current_turn)

/-- ChessBoard.will_be_in_check_after_move: the same speculative move,
but with the king position tracker updated when the king moves. -/
def will_be_in_check_after_move (bb : ChessBoard) (start_pos end_pos : Int × Int) : Bool :=
  match boardRead bb.board start_pos with
  | none => false
  | some piece =>
    let bd2 := boardWrite (boardWrite bb.board end_pos (some piece)) start_pos none
    let wk := if piece = "wK" then end_pos else bb.white_king_pos
    let bk := if piece = "bK" then end_pos else bb.black_king_pos
    is_in_check { bb with board := bd2, white_king_pos := wk, black_king_pos := bk }
      (if pyChar piece 0 = 'w' then "white" else "black")

/-- ChessBoard.move_piece, step by step in source order; without a piece
on the start square the source would fail on piece[1]. -/
def move_piece (bb : ChessBoard) (start_pos end_pos : Int × Int) : Option ChessBoard :=
  match boardRead bb.board start_pos with
  | none => none
  | some piece =>
    let bd0 := bb.board
    let bd1 :=
      if (piece = "wK" ∨ piece = "bK") ∧ (end_pos.2 - start_pos.2).natAbs = 2 then
        if end_pos.2 = 6 then
          boardWrite (boardWrite bd0 (start_pos.1, 5) (boardRead bd0 (start_pos.1, 7)))
            (start_pos.1, 7) none
        else if end_pos.2 = 2 then
          boardWrite (boardWrite bd0 (start_pos.1, 3) (boardRead bd0 (start_pos.1, 0)))
            (start_pos.1, 0) none
        else bd0
      else bd0
    let bd2 :=
      if pyChar piece 1 = 'P' ∧ some end_pos = bb.en_passant_target then
        boardWrite bd1 (start_pos.1, end_pos.2) none
      else bd1
    let ep2 : Option (Int × Int) :=
      if pyChar piece 1 = 'P' ∧ (start_pos.1 - end_pos.1).natAbs = 2 then
        some (start_pos.1 + (end_pos.1 - start_pos.1) / 2, start_pos.2)
      else none
    let bd3 := boardWrite (boardWrite bd2 end_pos (some piece)) start_pos none
    let wkp := if piece = "wK" then end_pos else bb.white_king_pos
    let bkp := if piece = "bK" then end_pos else bb.black_king_pos
    let wr1 := if piece = "wK" then { bb.white_rights with king_moved := true }
      else bb.white_rights
    let br1 := if piece = "bK" then { bb.black_rights with king_moved := true }
      else bb.black_rights
    let wr2 :=
      if piece = "wR" then
        if start_pos = (7, 0) then { wr1 with left_rook_moved := true }
        else if start_pos = (7, 7) then { wr1 with right_rook_moved := true }
        else wr1
      else wr1
    let br2 :=
      if piece = "bR" then
        if start_pos = (0, 0) then { br1 with left_rook_moved := true }
        else if start_pos = (0, 7) then { br1 with right_rook_moved := true }
        else br1
      else br1
    let bd4 :=
      if pyChar piece 1 = 'P' ∧ (end_pos.1 = 0 ∨ end_pos.1 = 7) then
        boardWrite bd3 end_pos (some (String.mk [pyChar piece 0, 'Q']))
      else bd3
    some { board := bd4,
           current_turn := if bb.current_turn = "white" then "black" else "white",
           move_log := bb.move_log ++ [(start_pos, end_pos)],
           white_king_pos := wkp, black_king_pos := bkp,
           white_rights := wr2, black_rights := br2,
           en_passant_target := ep2 }

/-- ChessBoard.__init__: the starting position with White to move and
every castling flag clear. -/
def initChessBoard : ChessBoard :=
  { board := [[some "bR", some "bN", some "bB", some "bQ", some "bK", some "bB", some "bN",
               some "bR"],
              List.replicate 8 (some "bP"),
              List.replicate 8 none, List.replicate 8 none,
              List.replicate 8 none, List.replicate 8 none,
              List.replicate 8 (some "wP"),
              [some "wR", some "wN", some "wB", some "wQ", some "wK", some "wB", some "wN",
               some "wR"]],
    current_turn := "white", move_log := [],
    white_king_pos := (7, 4), black_king_pos := (0, 4),
    white_rights := ⟨false, false, false⟩, black_rights := ⟨false, false, false⟩,
    en_passant_target := none }

/-- A position for C7: white king e1, black rook f8, black king a8,
White to move; the tracked king positions agree with the board. -/
def c7Board : ChessBoard :=
  { board := [[some "bK", none, none, none, none, some "bR", none, none],
              List.replicate 8 none, List.replicate 8 none, List.replicate 8 none,
              List.replicate 8 none, List.replicate 8 none, List.replicate 8 none,
              [none, none, none, none, some "wK", none, none, none]],
    current_turn := "white", move_log := [],
    white_king_pos := (7, 4), black_king_pos := (0, 0),
    white_rights := ⟨false, false, false⟩, black_rights := ⟨false, false, false⟩,
    en_passant_target := none }

end B

end Chess

/-! ## Theorems -/

namespace Chess

/-! ### List access helpers -/

theorem boardGet_set_eq (l : List (Option Piece)) (i : Nat) (v : Option Piece)
    (h : i < l.length) : boardGet (l.set i v) i = v := by
  simp [boardGet, List.getD, List.getElem?_set, h]

theorem boardGet_set_ne (l : List (Option Piece)) (i j : Nat) (v : Option Piece)
    (h : i ≠ j) : boardGet (l.set i v) j = boardGet l j := by
  simp [boardGet, List.getD, List.getElem?_set, h]

theorem boardGet_ext (l1 l2 : List (Option Piece)) (hl : l1.length = l2.length)
    (h : ∀ j, boardGet l1 j = boardGet l2 j) : l1 = l2 := by
  apply List.ext_getElem hl
  intro n h1 h2
  have hj := h n
  simp [boardGet, List.getD, List.getElem?_eq_getElem, h1, h2] at hj
  exact hj

theorem mem_ite_nil {α : Type} (c : Prop) [Decidable c] (l : List α) (a : α)
    (h : a ∈ if c then l else []) : c ∧ a ∈ l := by
  split at h
  · exact ⟨‹_›, h⟩
  · cases h

theorem move_fields (m : Move) (f t : Nat) (p : Option Nat) (fl : Nat)
    (h : m = { from_sq := f, to_sq := t, promotion := p, flags := fl }) :
    m.from_sq = f ∧ m.to_sq = t ∧ m.promotion = p ∧ m.flags = fl := by
  subst h; exact ⟨rfl, rfl, rfl, rfl⟩

theorem mem_pawnMovesFrom (b : Board) (index : Nat) (m : Move) (hidx : index < 64)
    (hm : m ∈ pawnMovesFrom b index) : PawnFacts b index m := by
  by_cases ht : b.turn = WHITE
  · simp only [pawnMovesFrom, ht, if_true, if_pos, List.mem_append, List.mem_flatMap,
      List.mem_cons, List.not_mem_nil, or_false] at hm
    rcases hm with hm | hm
    · -- forward pushes
      obtain ⟨hb, hm⟩ := mem_ite_nil _ _ _ hm
      obtain ⟨-, hm⟩ := mem_ite_nil _ _ _ hm
      rw [List.mem_append] at hm
      rcases hm with hm | hm
      · split at hm
        · simp only [List.mem_map] at hm
          obtain ⟨promo, -, hmv⟩ := hm
          obtain ⟨hf, htq, hp, hfl⟩ := move_fields _ _ _ _ _ hmv.symm
          exact ⟨hf, by omega, by omega, by rw [hfl]; decide,
            fun h => absurd (hfl ▸ h) (by decide), fun h => absurd h (by omega)⟩
        · simp only [List.mem_singleton] at hm
          obtain ⟨hf, htq, hp, hfl⟩ := move_fields _ _ _ _ _ hm
          exact ⟨hf, by omega, by omega, by rw [hfl]; decide,
            fun h => absurd (hfl ▸ h) (by decide), fun h => absurd h (by omega)⟩
      · obtain ⟨hs, hm⟩ := mem_ite_nil _ _ _ hm
        obtain ⟨-, hm⟩ := mem_ite_nil _ _ _ hm
        simp only [List.mem_singleton] at hm
        obtain ⟨hf, htq, hp, hfl⟩ := move_fields _ _ _ _ _ hm
        simp only [get_rank] at hs
        refine ⟨hf, by omega, by omega, by rw [hfl]; decide,
          fun h => absurd (hfl ▸ h) (by decide),
          fun _ => ⟨fun _ => by omega, fun hw => absurd ht hw⟩⟩
    · -- diagonal captures and en passant
      obtain ⟨a, ha, hm⟩ := hm
      replace ha : a = -1 ∨ a = 1 := by
        rcases ha with h | h
        · exact Or.inl h
        · exact Or.inr h
      obtain ⟨hb, hm⟩ := mem_ite_nil _ _ _ hm
      split at hm
      · -- an occupied destination square
        split at hm
        · -- an enemy piece: plain or promoting capture
          split at hm
          · simp only [List.mem_map] at hm
            obtain ⟨promo, -, hmv⟩ := hm
            obtain ⟨hf, htq, hp, hfl⟩ := move_fields _ _ _ _ _ hmv.symm
            simp only [get_rank, get_file] at hb htq
            exact ⟨hf, by omega, by omega, by rw [hfl]; decide,
              fun h => absurd (hfl ▸ h) (by decide), fun h => absurd h (by omega)⟩
          · simp only [List.mem_singleton] at hm
            obtain ⟨hf, htq, hp, hfl⟩ := move_fields _ _ _ _ _ hm
            simp only [get_rank, get_file] at hb htq
            exact ⟨hf, by omega, by omega, by rw [hfl]; decide,
              fun h => absurd (hfl ▸ h) (by decide), fun h => absurd h (by omega)⟩
        · -- a friendly piece on the en-passant target
          obtain ⟨hep, hm⟩ := mem_ite_nil _ _ _ hm
          simp only [List.mem_singleton] at hm
          obtain ⟨hf, htq, hp, hfl⟩ := move_fields _ _ _ _ _ hm
          simp only [get_rank, get_file] at hb hep htq
          refine ⟨hf, by omega, by omega, by rw [hfl]; decide,
            fun _ => ⟨hp, by rw [htq]; exact hep, fun _ => by omega, fun hw => absurd ht hw⟩,
            fun h => absurd h (by omega)⟩
      · -- an empty destination square on the en-passant target
        obtain ⟨hep, hm⟩ := mem_ite_nil _ _ _ hm
        simp only [List.mem_singleton] at hm
        obtain ⟨hf, htq, hp, hfl⟩ := move_fields _ _ _ _ _ hm
        simp only [get_rank, get_file] at hb hep htq
        refine ⟨hf, by omega, by omega, by rw [hfl]; decide,
          fun _ => ⟨hp, by rw [htq]; exact hep, fun _ => by omega, fun hw => absurd ht hw⟩,
          fun h => absurd h (by omega)⟩
  · simp only [pawnMovesFrom, ht, if_false, List.mem_append, List.mem_flatMap,
      List.mem_cons, List.not_mem_nil, or_false] at hm
    rcases hm with hm | hm
    · -- forward pushes
      obtain ⟨hb, hm⟩ := mem_ite_nil _ _ _ hm
      obtain ⟨-, hm⟩ := mem_ite_nil _ _ _ hm
      rw [List.mem_append] at hm
      rcases hm with hm | hm
      · split at hm
        · simp only [List.mem_map] at hm
          obtain ⟨promo, -, hmv⟩ := hm
          obtain ⟨hf, htq, hp, hfl⟩ := move_fields _ _ _ _ _ hmv.symm
          exact ⟨hf, by omega, by omega, by rw [hfl]; decide,
            fun h => absurd (hfl ▸ h) (by decide), fun h => absurd h (by omega)⟩
        · simp only [List.mem_singleton] at hm
          obtain ⟨hf, htq, hp, hfl⟩ := move_fields _ _ _ _ _ hm
          exact ⟨hf, by omega, by omega, by rw [hfl]; decide,
            fun h => absurd (hfl ▸ h) (by decide), fun h => absurd h (by omega)⟩
      · obtain ⟨hs, hm⟩ := mem_ite_nil _ _ _ hm
        obtain ⟨-, hm⟩ := mem_ite_nil _ _ _ hm
        simp only [List.mem_singleton] at hm
        obtain ⟨hf, htq, hp, hfl⟩ := move_fields _ _ _ _ _ hm
        simp only [get_rank] at hs
        refine ⟨hf, by omega, by omega, by rw [hfl]; decide,
          fun h => absurd (hfl ▸ h) (by decide),
          fun _ => ⟨fun hw => absurd hw ht, fun _ => by omega⟩⟩
    · -- diagonal captures and en passant
      obtain ⟨a, ha, hm⟩ := hm
      replace ha : a = -1 ∨ a = 1 := by
        rcases ha with h | h
        · exact Or.inl h
        · exact Or.inr h
      obtain ⟨hb, hm⟩ := mem_ite_nil _ _ _ hm
      split at hm
      · -- an occupied destination square
        split at hm
        · -- an enemy piece: plain or promoting capture
          split at hm
          · simp only [List.mem_map] at hm
            obtain ⟨promo, -, hmv⟩ := hm
            obtain ⟨hf, htq, hp, hfl⟩ := move_fields _ _ _ _ _ hmv.symm
            simp only [get_rank, get_file] at hb htq
            exact ⟨hf, by omega, by omega, by rw [hfl]; decide,
              fun h => absurd (hfl ▸ h) (by decide), fun h => absurd h (by omega)⟩
          · simp only [List.mem_singleton] at hm
            obtain ⟨hf, htq, hp, hfl⟩ := move_fields _ _ _ _ _ hm
            simp only [get_rank, get_file] at hb htq
            exact ⟨hf, by omega, by omega, by rw [hfl]; decide,
              fun h => absurd (hfl ▸ h) (by decide), fun h => absurd h (by omega)⟩
        · -- a friendly piece on the en-passant target
          obtain ⟨hep, hm⟩ := mem_ite_nil _ _ _ hm
          simp only [List.mem_singleton] at hm
          obtain ⟨hf, htq, hp, hfl⟩ := move_fields _ _ _ _ _ hm
          simp only [get_rank, get_file] at hb hep htq
          refine ⟨hf, by omega, by omega, by rw [hfl]; decide,
            fun _ => ⟨hp, by rw [htq]; exact hep, fun hw => absurd hw ht, fun _ => by omega⟩,
            fun h => absurd h (by omega)⟩
      · -- an empty destination square on the en-passant target
        obtain ⟨hep, hm⟩ := mem_ite_nil _ _ _ hm
        simp only [List.mem_singleton] at hm
        obtain ⟨hf, htq, hp, hfl⟩ := move_fields _ _ _ _ _ hm
        simp only [get_rank, get_file] at hb hep htq
        refine ⟨hf, by omega, by omega, by rw [hfl]; decide,
          fun _ => ⟨hp, by rw [htq]; exact hep, fun hw => absurd hw ht, fun _ => by omega⟩,
          fun h => absurd h (by omega)⟩

theorem mem_knightMovesFrom (b : Board) (index : Nat) (m : Move) (hidx : index < 64)
    (hm : m ∈ knightMovesFrom b index) : SimpleFacts index m := by
  simp only [knightMovesFrom, KNIGHT_MOVES, List.mem_flatMap, List.mem_cons,
    List.not_mem_nil, or_false] at hm
  obtain ⟨d, hd, hm⟩ := hm
  obtain ⟨hb, hm⟩ := mem_ite_nil _ _ _ hm
  have hfacts : m.from_sq = index ∧
      m.to_sq = (((get_rank index : Int) + d.1) * 8 + ((get_file index : Int) + d.2)).toNat ∧
      m.promotion = none ∧ (m.flags = NORMAL_MOVE ∨ m.flags = CAPTURE) := by
    split at hm
    · simp only [List.mem_singleton] at hm
      obtain ⟨hf, htq, hp, hfl⟩ := move_fields _ _ _ _ _ hm
      exact ⟨hf, htq, hp, Or.inl hfl⟩
    · obtain ⟨-, hm⟩ := mem_ite_nil _ _ _ hm
      simp only [List.mem_singleton] at hm
      obtain ⟨hf, htq, hp, hfl⟩ := move_fields _ _ _ _ _ hm
      exact ⟨hf, htq, hp, Or.inr hfl⟩
  obtain ⟨hf, htq, hp, hfl⟩ := hfacts
  simp only [get_rank, get_file] at hb htq
  refine ⟨hf, ?_, ?_, hp, ?_, ?_⟩
  · rcases hd with rfl|rfl|rfl|rfl|rfl|rfl|rfl|rfl <;> (simp only at htq hb; omega)
  · rcases hd with rfl|rfl|rfl|rfl|rfl|rfl|rfl|rfl <;> (simp only at htq hb; omega)
  · rcases hfl with h|h <;> (rw [h]; decide)
  · rcases hfl with h|h <;> (rw [h]; decide)

theorem mem_scanRayMoves (b : Board) (index : Nat) (fr ff dr df : Int) (m : Move) :
    ∀ steps : List Int, (∀ i ∈ steps, 1 ≤ i) → m ∈ scanRayMoves b index fr ff dr df steps →
    m.from_sq = index ∧ m.promotion = none ∧ (m.flags = NORMAL_MOVE ∨ m.flags = CAPTURE) ∧
    ∃ i : Int, 1 ≤ i ∧ m.to_sq = ((fr + i * dr) * 8 + (ff + i * df)).toNat ∧
      0 ≤ fr + i * dr ∧ fr + i * dr < 8 ∧ 0 ≤ ff + i * df ∧ ff + i * df < 8 := by
  intro steps
  induction steps with
  | nil => intro _ hm; cases hm
  | cons i rest ih =>
    intro hsteps hm
    have hone : (1:Int) ≤ i := hsteps i (List.mem_cons_self i rest)
    simp only [scanRayMoves] at hm
    split at hm
    · rename_i hbounds
      split at hm
      · rcases List.mem_cons.mp hm with hm | hm
        · obtain ⟨hf, htq, hp, hfl⟩ := move_fields _ _ _ _ _ hm
          exact ⟨hf, hp, Or.inl hfl, i, hone,
            htq, hbounds.1, hbounds.2.1, hbounds.2.2.1, hbounds.2.2.2⟩
        · exact ih (fun j hj => hsteps j (List.mem_cons_of_mem i hj)) hm
      · split at hm
        · simp only [List.mem_singleton] at hm
          obtain ⟨hf, htq, hp, hfl⟩ := move_fields _ _ _ _ _ hm
          exact ⟨hf, hp, Or.inr hfl, i, hone,
            htq, hbounds.1, hbounds.2.1, hbounds.2.2.1, hbounds.2.2.2⟩
        · cases hm
    · cases hm

theorem mem_slidingMovesFrom (b : Board) (index : Nat) (ptype : Nat) (m : Move)
    (hidx : index < 64) (hm : m ∈ slidingMovesFrom b index ptype) : SimpleFacts index m := by
  simp only [slidingMovesFrom] at hm
  have hd : ∃ d : Int × Int,
      (d = (1, 1) ∨ d = (1, -1) ∨ d = (-1, 1) ∨ d = (-1, -1) ∨
       d = (1, 0) ∨ d = (-1, 0) ∨ d = (0, 1) ∨ d = (0, -1)) ∧
      m ∈ scanRayMoves b index (get_rank index) (get_file index) d.1 d.2 intRange1to7 := by
    split at hm <;> [skip; split at hm] <;>
    · simp only [BISHOP_DIRECTIONS, ROOK_DIRECTIONS, QUEEN_DIRECTIONS, List.cons_append,
        List.nil_append, List.mem_flatMap, List.mem_cons, List.not_mem_nil, or_false] at hm
      obtain ⟨d, hd, hm⟩ := hm
      first
        | (rcases hd with rfl|rfl|rfl|rfl <;> exact ⟨_, by decide, hm⟩)
        | (rcases hd with rfl|rfl|rfl|rfl|rfl|rfl|rfl|rfl <;> exact ⟨_, by decide, hm⟩)
  obtain ⟨d, hdm, hm⟩ := hd
  obtain ⟨hf, hp, hfl, i, hi, htq, hb1, hb2, hb3, hb4⟩ :=
    mem_scanRayMoves b index (get_rank index) (get_file index) d.1 d.2 m intRange1to7
      (by intro j hj; simp only [intRange1to7, List.mem_cons, List.not_mem_nil, or_false] at hj; omega) hm
  simp only [get_rank, get_file] at htq hb1 hb2 hb3 hb4
  refine ⟨hf, ?_, ?_, hp, ?_, ?_⟩
  · rcases hdm with rfl|rfl|rfl|rfl|rfl|rfl|rfl|rfl <;> (simp only at htq hb1 hb2 hb3 hb4; omega)
  · rcases hdm with rfl|rfl|rfl|rfl|rfl|rfl|rfl|rfl <;> (simp only at htq hb1 hb2 hb3 hb4; omega)
  · rcases hfl with h|h <;> (rw [h]; decide)
  · rcases hfl with h|h <;> (rw [h]; decide)

theorem mem_kingMovesFrom (b : Board) (index : Nat) (m : Move) (piece : Piece)
    (hidx : index < 64) (hpiece : boardGet b.board index = some piece)
    (hm : m ∈ kingMovesFrom b index) :
    m.from_sq = index ∧ m.to_sq < 64 ∧ m.to_sq ≠ index ∧ m.promotion = none ∧
    m.flags ≠ EN_PASSANT ∧ (m.flags = CASTLING → CastleShape b m) ∧
    (m.flags ≠ CASTLING → m.flags = NORMAL_MOVE ∨ m.flags = CAPTURE) := by
  simp only [kingMovesFrom, List.mem_append] at hm
  rcases hm with hm | hm
  · -- the 8 adjacent steps
    simp only [kingOffsets, List.mem_flatMap, List.mem_cons, List.not_mem_nil, or_false] at hm
    obtain ⟨d, hd, hm⟩ := hm
    obtain ⟨hb, hm⟩ := mem_ite_nil _ _ _ hm
    have hfacts : m.from_sq = index ∧
        m.to_sq = (((get_rank index : Int) + d.1) * 8 + ((get_file index : Int) + d.2)).toNat ∧
        m.promotion = none ∧ (m.flags = NORMAL_MOVE ∨ m.flags = CAPTURE) := by
      split at hm
      · simp only [List.mem_singleton] at hm
        obtain ⟨hf, htq, hp, hfl⟩ := move_fields _ _ _ _ _ hm
        exact ⟨hf, htq, hp, Or.inl hfl⟩
      · obtain ⟨-, hm⟩ := mem_ite_nil _ _ _ hm
        simp only [List.mem_singleton] at hm
        obtain ⟨hf, htq, hp, hfl⟩ := move_fields _ _ _ _ _ hm
        exact ⟨hf, htq, hp, Or.inr hfl⟩
    obtain ⟨hf, htq, hp, hfl⟩ := hfacts
    simp only [get_rank, get_file] at hb htq
    refine ⟨hf, ?_, ?_, hp, ?_, ?_, fun _ => hfl⟩
    · rcases hd with rfl|rfl|rfl|rfl|rfl|rfl|rfl|rfl <;> (simp only at htq hb; omega)
    · rcases hd with rfl|rfl|rfl|rfl|rfl|rfl|rfl|rfl <;> (simp only at htq hb; omega)
    · rcases hfl with h|h <;> (rw [h]; decide)
    · rcases hfl with h|h <;> (intro hc; rw [h] at hc; cases hc)
  · -- castling offers
    obtain ⟨-, hm⟩ := mem_ite_nil _ _ _ hm
    rw [List.mem_append] at hm
    have hto : m.from_sq = index ∧ m.promotion = none ∧ m.flags = CASTLING ∧ CastleShape b m ∧
        m.to_sq ≠ index ∧ m.to_sq < 64 := by
      rcases hm with hm | hm
      · -- king side
        split at hm
        · rename_i hwk
          obtain ⟨hcond, hm⟩ := mem_ite_nil _ _ _ hm
          simp only [List.mem_singleton] at hm
          obtain ⟨hf, htq, hp, hfl⟩ := move_fields _ _ _ _ _ hm
          have hne : index ≠ 6 := fun h => by
            rw [h] at hpiece; rw [hcond.2.1] at hpiece; cases hpiece
          exact ⟨hf, hp, hfl, Or.inl ⟨htq, hwk.1, hwk.2, hcond.1, hcond.2.1⟩,
            by omega, by omega⟩
        · split at hm
          · rename_i hbk
            obtain ⟨hcond, hm⟩ := mem_ite_nil _ _ _ hm
            simp only [List.mem_singleton] at hm
            obtain ⟨hf, htq, hp, hfl⟩ := move_fields _ _ _ _ _ hm
            have hne : index ≠ 62 := fun h => by
              rw [h] at hpiece; rw [hcond.2.1] at hpiece; cases hpiece
            exact ⟨hf, hp, hfl, Or.inr (Or.inr (Or.inl ⟨htq, hbk.1, hbk.2, hcond.1, hcond.2.1⟩)),
              by omega, by omega⟩
          · cases hm
      · -- queen side
        split at hm
        · rename_i hwq
          obtain ⟨hcond, hm⟩ := mem_ite_nil _ _ _ hm
          simp only [List.mem_singleton] at hm
          obtain ⟨hf, htq, hp, hfl⟩ := move_fields _ _ _ _ _ hm
          have hne : index ≠ 2 := fun h => by
            rw [h] at hpiece; rw [hcond.2.1] at hpiece; cases hpiece
          exact ⟨hf, hp, hfl, Or.inr (Or.inl ⟨htq, hwq.1, hwq.2, hcond.1, hcond.2.1, hcond.2.2.1⟩),
            by omega, by omega⟩
        · split at hm
          · rename_i hbq
            obtain ⟨hcond, hm⟩ := mem_ite_nil _ _ _ hm
            simp only [List.mem_singleton] at hm
            obtain ⟨hf, htq, hp, hfl⟩ := move_fields _ _ _ _ _ hm
            have hne : index ≠ 58 := fun h => by
              rw [h] at hpiece; rw [hcond.2.1] at hpiece; cases hpiece
            exact ⟨hf, hp, hfl,
              Or.inr (Or.inr (Or.inr ⟨htq, hbq.1, hbq.2, hcond.1, hcond.2.1, hcond.2.2.1⟩)),
              by omega, by omega⟩
          · cases hm
    obtain ⟨hf, hp, hfl, hshape, hne, hlt⟩ := hto
    exact ⟨hf, hlt, hne, hp, by rw [hfl]; decide, fun _ => hshape, fun h => absurd hfl h⟩

theorem mem_movesFrom (b : Board) (index : Nat) (m : Move) (hidx : index < 64)
    (hm : m ∈ movesFrom b index) : MoveFacts b m := by
  simp only [movesFrom] at hm
  split at hm
  · cases hm
  · rename_i piece hpiece
    split at hm
    · rename_i hcolor
      split at hm
      · rename_i htype
        obtain ⟨hf, hlt, hne, hcast, hep, hdbl⟩ := mem_pawnMovesFrom b index m hidx hm
        subst hf
        exact ⟨piece, hpiece, hcolor, hidx, hlt, hne, fun _ => htype,
          fun h => ⟨htype, (hep h).1, (hep h).2.1,
            fun hw => (hep h).2.2.1 (hcolor ▸ hw), fun hw => (hep h).2.2.2 (hcolor ▸ hw)⟩,
          fun h => absurd h hcast,
          fun _ h => ⟨fun hw => (hdbl h).1 (hcolor ▸ hw), fun hw => (hdbl h).2 (hcolor ▸ hw)⟩⟩
      · split at hm
        · rename_i htype
          obtain ⟨hf, hlt, hne, hp, hcast, hepf⟩ := mem_knightMovesFrom b index m hidx hm
          subst hf
          exact ⟨piece, hpiece, hcolor, hidx, hlt, hne,
            fun h => absurd hp h, fun h => absurd h hepf, fun h => absurd h hcast,
            fun h => absurd (htype.symm.trans h) (by decide)⟩
        · split at hm
          · rename_i htype
            obtain ⟨hf, hlt, hne, hp, hcast, hepf⟩ := mem_slidingMovesFrom b index piece.type m hidx hm
            subst hf
            refine ⟨piece, hpiece, hcolor, hidx, hlt, hne,
              fun h => absurd hp h, fun h => absurd h hepf, fun h => absurd h hcast, ?_⟩
            rcases htype with h|h|h <;>
              exact fun hpw => absurd (h.symm.trans hpw) (by decide)
          · split at hm
            · obtain ⟨hf, hlt, hne, hp, hepf, hcast, -⟩ :=
                mem_kingMovesFrom b index m piece hidx hpiece hm
              rename_i htype
              subst hf
              exact ⟨piece, hpiece, hcolor, hidx, hlt, hne,
                fun h => absurd hp h, fun h => absurd h hepf, fun h => ⟨htype, hp, hcast h⟩,
                fun h => absurd (htype.symm.trans h) (by decide)⟩
            · cases hm
    · cases hm

theorem mem_get_pseudo_legal_moves (b : Board) (m : Move) (hlen : b.board.length = 64)
    (hm : m ∈ get_pseudo_legal_moves b) : MoveFacts b m := by
  simp only [get_pseudo_legal_moves, List.mem_flatMap, List.mem_range] at hm
  obtain ⟨index, hidx, hm⟩ := hm
  exact mem_movesFrom b index m (hlen ▸ hidx) hm

theorem mem_get_legal_moves (b : Board) (m : Move) (hm : m ∈ get_legal_moves b) :
    m ∈ get_pseudo_legal_moves b := by
  simp only [get_legal_moves, List.mem_filter] at hm
  exact hm.1

theorem castle_board_restore (L : List (Option Piece)) (piece : Piece) (F T RF RT : Nat)
    (hlen : L.length = 64) (hF : F < 64) (hT : T < 64) (hRF : RF < 64) (hRT : RT < 64)
    (hd1 : F ≠ T) (hd2 : F ≠ RF) (hd3 : F ≠ RT) (hd4 : T ≠ RF) (hd5 : T ≠ RT) (hd6 : RF ≠ RT)
    (hpieceF : boardGet L F = some piece) (hT0 : boardGet L T = none)
    (hRT0 : boardGet L RT = none) :
    (((((((((L.set T (some piece)).set F none).set RF none).set RT
        (boardGet ((L.set T (some piece)).set F none) RF)).set F (some piece)).set T
        none).set RT none).set RF
        (boardGet ((((((L.set T (some piece)).set F none).set RF none).set RT
          (boardGet ((L.set T (some piece)).set F none) RF)).set F (some piece)).set T none)
          RT))) = L := by
  have hr7 : boardGet ((L.set T (some piece)).set F none) RF = boardGet L RF := by
    rw [boardGet_set_ne _ _ _ _ hd2, boardGet_set_ne _ _ _ _ hd4]
  have hrook : boardGet ((((((L.set T (some piece)).set F none).set RF none).set RT
      (boardGet ((L.set T (some piece)).set F none) RF)).set F (some piece)).set T none) RT
      = boardGet L RF := by
    rw [boardGet_set_ne _ _ _ _ hd5, boardGet_set_ne _ _ _ _ hd3, boardGet_set_eq, hr7]
    simp [hlen, hRT]
  rw [hrook]
  apply boardGet_ext
  · simp [hlen]
  · intro j
    by_cases hj1 : j = RF
    · subst hj1
      rw [boardGet_set_eq]
      simp [hlen, hRF]
    · rw [boardGet_set_ne _ _ _ _ fun h => hj1 h.symm]
      by_cases hj2 : j = RT
      · subst hj2
        rw [boardGet_set_eq, hRT0]
        simp [hlen, hRT]
      · rw [boardGet_set_ne _ _ _ _ fun h => hj2 h.symm]
        by_cases hj3 : j = T
        · subst hj3
          rw [boardGet_set_eq, hT0]
          simp [hlen, hT]
        · rw [boardGet_set_ne _ _ _ _ fun h => hj3 h.symm]
          by_cases hj4 : j = F
          · subst hj4
            rw [boardGet_set_eq, hpieceF]
            simp [hlen, hF]
          · rw [boardGet_set_ne _ _ _ _ fun h => hj4 h.symm,
              boardGet_set_ne _ _ _ _ fun h => hj2 h.symm,
              boardGet_set_ne _ _ _ _ fun h => hj1 h.symm,
              boardGet_set_ne _ _ _ _ fun h => hj4 h.symm,
              boardGet_set_ne _ _ _ _ fun h => hj3 h.symm]

theorem make_unmake_restores (b : Board) (m : Move) (b2 : Board)
    (hlen : b.board.length = 64) (hturn : turnOK b) (hepv : epTargetEmpty b)
    (hcr : castlingRightsOK b) (hm : m ∈ get_legal_moves b)
    (hmk : make_move b m = some b2) :
    observables (unmake_move b2) = observables b := by
  obtain ⟨piece, hpiece, hcolor, hflt, htlt, hne, hpromo, hepf, hcastf, hdbl⟩ :=
    mem_get_pseudo_legal_moves b m hlen (mem_get_legal_moves b m hm)
  by_cases hfep : m.flags = EN_PASSANT
  · -- en passant: the landing square was empty and the captured pawn
    -- sits beside it
    obtain ⟨hpt, hprn, hept, hwf, hbf⟩ := hepf hfep
    have hfca : ¬ m.flags = CASTLING := by rw [hfep]; decide
    have hkt1 : (m.flags = EN_PASSANT) = True := eq_true hfep
    have hkt2 : (m.flags = CASTLING) = False := eq_false hfca
    have hc0 : boardGet b.board m.to_sq = none := hepv _ hept
    by_cases hw : piece.color = WHITE
    · obtain ⟨h8t, hcf⟩ := hwf hw
      simp only [make_move, hpiece, hprn, hkt1, hkt2, ite_false, ite_true,
        if_false, if_true] at hmk
      rw [if_neg (by rw [hcolor]; exact fun h => h rfl), Option.some_inj] at hmk
      simp only [hw, ite_false, ite_true, if_false, if_true] at hmk
      subst hmk
      simp only [unmake_move, hprn, hkt1, hkt2, ite_false, ite_true, if_false, if_true]
      have hcc : boardGet ((b.board.set m.to_sq (some piece)).set m.from_sq none) (m.to_sq - 8)
          = boardGet b.board (m.to_sq - 8) := by
        rw [boardGet_set_ne _ _ _ _ fun h => hcf h.symm,
          boardGet_set_ne _ _ _ _ (by omega)]
      have hget_t : boardGet (((b.board.set m.to_sq (some piece)).set m.from_sq none).set
          (m.to_sq - 8) none) m.to_sq = some piece := by
        rw [boardGet_set_ne _ _ _ _ (by omega),
          boardGet_set_ne _ _ _ _ (Ne.symm hne), boardGet_set_eq]
        rw [hlen]; exact htlt
      simp only [hget_t, hw, ite_true, if_true, observables, Observables.mk.injEq]
      refine ⟨?_, ?_, trivial, trivial, trivial, ?_⟩
      · apply boardGet_ext
        · simp [hlen]
        · intro j
          by_cases hj1 : j = m.to_sq - 8
          · subst hj1
            rw [boardGet_set_eq, hcc]
            simp only [List.length_set, hlen]
            omega
          · rw [boardGet_set_ne _ _ _ _ fun h => hj1 h.symm]
            by_cases hj2 : j = m.to_sq
            · subst hj2
              rw [boardGet_set_eq, hc0]
              simp [hlen, htlt]
            · rw [boardGet_set_ne _ _ _ _ fun h => hj2 h.symm,
                boardGet_set_ne _ _ _ _ fun h => hj2 h.symm]
              by_cases hj3 : j = m.from_sq
              · subst hj3
                rw [boardGet_set_eq, hpiece]
                simp [hlen, hflt]
              · rw [boardGet_set_ne _ _ _ _ fun h => hj3 h.symm,
                  boardGet_set_ne _ _ _ _ fun h => hj1 h.symm,
                  boardGet_set_ne _ _ _ _ fun h => hj3 h.symm,
                  boardGet_set_ne _ _ _ _ fun h => hj2 h.symm]
      · rcases hturn with h | h <;> rw [h] <;> rfl
      · rcases hturn with h | h <;> simp [h, WHITE, BLACK]
    · obtain ⟨h64t, hcf⟩ := hbf hw
      simp only [make_move, hpiece, hprn, hkt1, hkt2, ite_false, ite_true,
        if_false, if_true] at hmk
      rw [if_neg (by rw [hcolor]; exact fun h => h rfl), Option.some_inj] at hmk
      simp only [hw, ite_false, ite_true, if_false, if_true] at hmk
      subst hmk
      simp only [unmake_move, hprn, hkt1, hkt2, ite_false, ite_true, if_false, if_true]
      have hcc : boardGet ((b.board.set m.to_sq (some piece)).set m.from_sq none) (m.to_sq + 8)
          = boardGet b.board (m.to_sq + 8) := by
        rw [boardGet_set_ne _ _ _ _ fun h => hcf h.symm,
          boardGet_set_ne _ _ _ _ (by omega)]
      have hget_t : boardGet (((b.board.set m.to_sq (some piece)).set m.from_sq none).set
          (m.to_sq + 8) none) m.to_sq = some piece := by
        rw [boardGet_set_ne _ _ _ _ (by omega),
          boardGet_set_ne _ _ _ _ (Ne.symm hne), boardGet_set_eq]
        rw [hlen]; exact htlt
      simp only [hget_t, hw, ite_false, if_false, observables, Observables.mk.injEq]
      refine ⟨?_, ?_, trivial, trivial, trivial, ?_⟩
      · apply boardGet_ext
        · simp [hlen]
        · intro j
          by_cases hj1 : j = m.to_sq + 8
          · subst hj1
            rw [boardGet_set_eq, hcc]
            simp only [List.length_set, hlen]
            omega
          · rw [boardGet_set_ne _ _ _ _ fun h => hj1 h.symm]
            by_cases hj2 : j = m.to_sq
            · subst hj2
              rw [boardGet_set_eq, hc0]
              simp [hlen, htlt]
            · rw [boardGet_set_ne _ _ _ _ fun h => hj2 h.symm,
                boardGet_set_ne _ _ _ _ fun h => hj2 h.symm]
              by_cases hj3 : j = m.from_sq
              · subst hj3
                rw [boardGet_set_eq, hpiece]
                simp [hlen, hflt]
              · rw [boardGet_set_ne _ _ _ _ fun h => hj3 h.symm,
                  boardGet_set_ne _ _ _ _ fun h => hj1 h.symm,
                  boardGet_set_ne _ _ _ _ fun h => hj3 h.symm,
                  boardGet_set_ne _ _ _ _ fun h => hj2 h.symm]
      · rcases hturn with h | h <;> rw [h] <;> rfl
      · rcases hturn with h | h <;> simp [h, WHITE, BLACK]
  · by_cases hfca : m.flags = CASTLING
    · -- castling: four concrete rook relocations
      obtain ⟨hkt, hprn, hshape⟩ := hcastf hfca
      have hkt1 : (m.flags = EN_PASSANT) = False := eq_false hfep
      have hkt2 : (m.flags = CASTLING) = True := eq_true hfca
      rcases hshape with ⟨hto, htw, hbit, h5, h6⟩ | ⟨hto, htw, hbit, h3, h2, h1⟩ | ⟨hto, htw, hbit, h61, h62⟩ | ⟨hto, htw, hbit, h59, h58, h57⟩
      · -- white king-side castle: e1 to g1, rook h1 to f1
        have hbk : boardGet b.board m.from_sq = some (⟨KING, WHITE⟩ : Piece) := by
          rw [hpiece]
          obtain ⟨pt, pc⟩ := piece
          simp only at hkt hcolor
          rw [show pt = KING from hkt, show pc = WHITE from hcolor.trans htw]
        have hf4 : m.from_sq = 4 := hcr.1 hbit m.from_sq hbk
        have hpieceF : boardGet b.board 4 = some piece := hf4 ▸ hpiece
        simp only [make_move, hpieceF, hprn, hkt1, hkt2, hto, hf4, h6, eq_self_iff_true,
          ite_true, ite_false, if_true, if_false] at hmk
        rw [if_neg (by rw [hcolor]; exact fun h => h rfl), Option.some_inj] at hmk
        subst hmk
        simp only [unmake_move, hprn, hkt1, hkt2, hto, hf4, h6, eq_self_iff_true,
          ite_true, ite_false, if_true, if_false]
        have hget_t : boardGet ((((b.board.set 6 (some piece)).set 4 none).set 7
            none).set 5 (boardGet ((b.board.set 6 (some piece)).set 4 none) 7)) 6
            = some piece := by
          rw [boardGet_set_ne _ _ _ _ (by decide), boardGet_set_ne _ _ _ _ (by decide),
            boardGet_set_ne _ _ _ _ (by decide), boardGet_set_eq]
          rw [hlen]; decide
        rw [hget_t]
        simp only [observables, Observables.mk.injEq]
        refine ⟨?_, ?_, trivial, trivial, trivial, ?_⟩
        · exact castle_board_restore b.board piece 4 6 7 5 hlen (by decide) (by decide)
            (by decide) (by decide) (by decide) (by decide) (by decide) (by decide) (by decide)
            (by decide) hpieceF h6 h5
        · rcases hturn with h | h <;> rw [h] <;> rfl
        · rcases hturn with h | h <;> simp [h, WHITE, BLACK]
      · -- white queen-side castle: e1 to c1, rook a1 to d1
        have hbk : boardGet b.board m.from_sq = some (⟨KING, WHITE⟩ : Piece) := by
          rw [hpiece]
          obtain ⟨pt, pc⟩ := piece
          simp only at hkt hcolor
          rw [show pt = KING from hkt, show pc = WHITE from hcolor.trans htw]
        have hf4 : m.from_sq = 4 := hcr.2.1 hbit m.from_sq hbk
        have hpieceF : boardGet b.board 4 = some piece := hf4 ▸ hpiece
        have hx1 : ((2:Nat) = 6) = False := by decide
        simp only [make_move, hpieceF, hprn, hkt1, hkt2, hto, hf4, h2, eq_self_iff_true,
          ite_true, ite_false, if_true, if_false, hx1] at hmk
        rw [if_neg (by rw [hcolor]; exact fun h => h rfl), Option.some_inj] at hmk
        subst hmk
        simp only [unmake_move, hprn, hkt1, hkt2, hto, hf4, h2, eq_self_iff_true,
          ite_true, ite_false, if_true, if_false, hx1]
        have hget_t : boardGet ((((b.board.set 2 (some piece)).set 4 none).set 0
            none).set 3 (boardGet ((b.board.set 2 (some piece)).set 4 none) 0)) 2
            = some piece := by
          rw [boardGet_set_ne _ _ _ _ (by decide), boardGet_set_ne _ _ _ _ (by decide),
            boardGet_set_ne _ _ _ _ (by decide), boardGet_set_eq]
          rw [hlen]; decide
        rw [hget_t]
        simp only [observables, Observables.mk.injEq]
        refine ⟨?_, ?_, trivial, trivial, trivial, ?_⟩
        · exact castle_board_restore b.board piece 4 2 0 3 hlen (by decide) (by decide)
            (by decide) (by decide) (by decide) (by decide) (by decide) (by decide) (by decide)
            (by decide) hpieceF h2 h3
        · rcases hturn with h | h <;> rw [h] <;> rfl
        · rcases hturn with h | h <;> simp [h, WHITE, BLACK]
      · -- black king-side castle: e8 to g8, rook h8 to f8
        have hbk : boardGet b.board m.from_sq = some (⟨KING, BLACK⟩ : Piece) := by
          rw [hpiece]
          obtain ⟨pt, pc⟩ := piece
          simp only at hkt hcolor
          rw [show pt = KING from hkt, show pc = BLACK from hcolor.trans htw]
        have hf4 : m.from_sq = 60 := hcr.2.2.1 hbit m.from_sq hbk
        have hpieceF : boardGet b.board 60 = some piece := hf4 ▸ hpiece
        have hx1 : ((62:Nat) = 6) = False := by decide
        have hx2 : ((62:Nat) = 2) = False := by decide
        simp only [make_move, hpieceF, hprn, hkt1, hkt2, hto, hf4, h62, eq_self_iff_true,
          ite_true, ite_false, if_true, if_false, hx1, hx2] at hmk
        rw [if_neg (by rw [hcolor]; exact fun h => h rfl), Option.some_inj] at hmk
        subst hmk
        simp only [unmake_move, hprn, hkt1, hkt2, hto, hf4, h62, eq_self_iff_true,
          ite_true, ite_false, if_true, if_false, hx1, hx2]
        have hget_t : boardGet ((((b.board.set 62 (some piece)).set 60 none).set 63
            none).set 61 (boardGet ((b.board.set 62 (some piece)).set 60 none) 63)) 62
            = some piece := by
          rw [boardGet_set_ne _ _ _ _ (by decide), boardGet_set_ne _ _ _ _ (by decide),
            boardGet_set_ne _ _ _ _ (by decide), boardGet_set_eq]
          rw [hlen]; decide
        rw [hget_t]
        simp only [observables, Observables.mk.injEq]
        refine ⟨?_, ?_, trivial, trivial, trivial, ?_⟩
        · exact castle_board_restore b.board piece 60 62 63 61 hlen (by decide) (by decide)
            (by decide) (by decide) (by decide) (by decide) (by decide) (by decide) (by decide)
            (by decide) hpieceF h62 h61
        · rcases hturn with h | h <;> rw [h] <;> rfl
        · rcases hturn with h | h <;> simp [h, WHITE, BLACK]
      · -- black queen-side castle: e8 to c8, rook a8 to d8
        have hbk : boardGet b.board m.from_sq = some (⟨KING, BLACK⟩ : Piece) := by
          rw [hpiece]
          obtain ⟨pt, pc⟩ := piece
          simp only at hkt hcolor
          rw [show pt = KING from hkt, show pc = BLACK from hcolor.trans htw]
        have hf4 : m.from_sq = 60 := hcr.2.2.2 hbit m.from_sq hbk
        have hpieceF : boardGet b.board 60 = some piece := hf4 ▸ hpiece
        have hx1 : ((58:Nat) = 6) = False := by decide
        have hx2 : ((58:Nat) = 2) = False := by decide
        have hx3 : ((58:Nat) = 62) = False := by decide
        simp only [make_move, hpieceF, hprn, hkt1, hkt2, hto, hf4, h58, eq_self_iff_true,
          ite_true, ite_false, if_true, if_false, hx1, hx2, hx3] at hmk
        rw [if_neg (by rw [hcolor]; exact fun h => h rfl), Option.some_inj] at hmk
        subst hmk
        simp only [unmake_move, hprn, hkt1, hkt2, hto, hf4, h58, eq_self_iff_true,
          ite_true, ite_false, if_true, if_false, hx1, hx2, hx3]
        have hget_t : boardGet ((((b.board.set 58 (some piece)).set 60 none).set 56
            none).set 59 (boardGet ((b.board.set 58 (some piece)).set 60 none) 56)) 58
            = some piece := by
          rw [boardGet_set_ne _ _ _ _ (by decide), boardGet_set_ne _ _ _ _ (by decide),
            boardGet_set_ne _ _ _ _ (by decide), boardGet_set_eq]
          rw [hlen]; decide
        rw [hget_t]
        simp only [observables, Observables.mk.injEq]
        refine ⟨?_, ?_, trivial, trivial, trivial, ?_⟩
        · exact castle_board_restore b.board piece 60 58 56 59 hlen (by decide) (by decide)
            (by decide) (by decide) (by decide) (by decide) (by decide) (by decide) (by decide)
            (by decide) hpieceF h58 h59
        · rcases hturn with h | h <;> rw [h] <;> rfl
        · rcases hturn with h | h <;> simp [h, WHITE, BLACK]
    · -- a plain move or capture, possibly with promotion
      have hcne : ¬(piece.color ≠ b.turn) := by rw [hcolor]; exact fun h => h rfl
      rcases hpr : m.promotion with - | p
      · simp only [make_move, hpiece, hpr, hfep, hfca, ite_false, ite_true, if_false, if_true] at hmk
        rw [if_neg hcne, Option.some_inj] at hmk
        subst hmk
        simp only [unmake_move, hpr, hfep, hfca, ite_false, ite_true, if_false, if_true]
        have hlen1 : ((b.board.set m.to_sq (some piece)).set m.from_sq none).length = 64 := by
          simp [hlen]
        have hget_t : boardGet ((b.board.set m.to_sq (some piece)).set m.from_sq none) m.to_sq
            = some piece := by
          rw [boardGet_set_ne _ _ _ _ (Ne.symm hne), boardGet_set_eq]
          rw [hlen]; exact htlt
        simp only [observables, Observables.mk.injEq]
        refine ⟨?_, ?_, trivial, trivial, trivial, ?_⟩
        · -- the piece placement is restored
          rw [hget_t]
          apply boardGet_ext
          · simp [hlen]
          · intro j
            by_cases hj1 : j = m.to_sq
            · subst hj1
              rw [boardGet_set_eq]
              simp [hlen, htlt]
            · rw [boardGet_set_ne _ _ _ _ fun h => hj1 h.symm]
              by_cases hj2 : j = m.from_sq
              · subst hj2
                rw [boardGet_set_eq, hpiece]
                simp [hlen, hflt]
              · rw [boardGet_set_ne _ _ _ _ fun h => hj2 h.symm,
                  boardGet_set_ne _ _ _ _ fun h => hj2 h.symm,
                  boardGet_set_ne _ _ _ _ fun h => hj1 h.symm]
        · -- the turn is restored
          rcases hturn with h | h <;> rw [h] <;> rfl
        · -- the full-move number is restored
          rcases hturn with h | h <;> simp [h, WHITE, BLACK]
      · -- promotion: the moved piece is a pawn and is restored as one
        have hpt : piece.type = PAWN := hpromo (by rw [hpr]; exact fun h => Option.noConfusion h)
        simp only [make_move, hpiece, hpr, hfep, hfca, ite_false, ite_true, if_false, if_true] at hmk
        rw [if_neg hcne, Option.some_inj] at hmk
        subst hmk
        simp only [unmake_move, hpr, hfep, hfca, ite_false, ite_true, if_false, if_true]
        have hget_t : boardGet (((b.board.set m.to_sq (some piece)).set m.from_sq none).set m.to_sq
            (some ⟨p, piece.color⟩)) m.to_sq = some ⟨p, piece.color⟩ := by
          rw [boardGet_set_eq]
          simp [hlen, htlt]
        have hpeq : (⟨PAWN, piece.color⟩ : Piece) = piece := by
          obtain ⟨pt, pc⟩ := piece
          simp only at hpt
          rw [hpt]
        simp only [observables, Observables.mk.injEq]
        refine ⟨?_, ?_, trivial, trivial, trivial, ?_⟩
        · rw [hget_t]
          simp only [Option.map_some']
          apply boardGet_ext
          · simp [hlen]
          · intro j
            by_cases hj1 : j = m.to_sq
            · subst hj1
              rw [boardGet_set_eq]
              simp [hlen, htlt]
            · rw [boardGet_set_ne _ _ _ _ fun h => hj1 h.symm]
              by_cases hj2 : j = m.from_sq
              · subst hj2
                rw [boardGet_set_eq, hpeq, hpiece]
                simp [hlen, hflt]
              · rw [boardGet_set_ne _ _ _ _ fun h => hj2 h.symm,
                  boardGet_set_ne _ _ _ _ fun h => hj1 h.symm,
                  boardGet_set_ne _ _ _ _ fun h => hj2 h.symm,
                  boardGet_set_ne _ _ _ _ fun h => hj1 h.symm]
        · rcases hturn with h | h <;> rw [h] <;> rfl
        · rcases hturn with h | h <;> simp [h, WHITE, BLACK]


theorem castlingRightsOK_of_bounded (b : Board) (hlen : b.board.length = 64)
    (hw : ∀ i < 64, boardGet b.board i = some ⟨KING, WHITE⟩ → i = 4)
    (hb : ∀ i < 64, boardGet b.board i = some ⟨KING, BLACK⟩ → i = 60) :
    castlingRightsOK b := by
  have hout : ∀ i, ¬ i < 64 → boardGet b.board i = none := by
    intro i hi
    unfold boardGet
    rw [List.getD_eq_default]
    omega
  refine ⟨fun _ i h => ?_, fun _ i h => ?_, fun _ i h => ?_, fun _ i h => ?_⟩ <;>
    by_cases hi : i < 64 <;>
      first
        | exact hw i hi h
        | exact hb i hi h
        | (rw [hout i hi] at h; cases h)

/-- C1 (amended): on every board with 64 squares, a valid side to move,
an empty en-passant target square when one is set, and castling rights
consistent with the king placement — all of which hold in every
position reached by play, though not in every FEN-loadable position —
making any legal move and then unmaking it restores every observable
field of the board (piece placement, turn, castling rights, en-passant
target, half-move clock, full-move number) to its exact prior value,
including for promotions, en-passant captures, and castling. -/
theorem c1_make_unmake_exact_inverse (b : Board) (m : Move)
    (hlen : b.board.length = 64) (hturn : turnOK b) (hepv : epTargetEmpty b)
    (hcr : castlingRightsOK b) (hm : m ∈ get_legal_moves b) :
    ∃ b2, make_move b m = some b2 ∧ observables (unmake_move b2) = observables b := by
  obtain ⟨piece, hpiece, hcolor, -⟩ :=
    mem_get_pseudo_legal_moves b m hlen (mem_get_legal_moves b m hm)
  have hsome : ∃ b2, make_move b m = some b2 := by
    simp only [make_move, hpiece]
    rw [if_neg (by rw [hcolor]; exact fun h => h rfl)]
    exact ⟨_, rfl⟩
  obtain ⟨b2, hmk⟩ := hsome
  exact ⟨b2, hmk, make_unmake_restores b m b2 hlen hturn hepv hcr hm hmk⟩

theorem c1_witness :
    ∃ b2, make_move startBoard e2e4Move = some b2 ∧
      observables (unmake_move b2) = observables startBoard :=
  c1_make_unmake_exact_inverse startBoard e2e4Move rfl (Or.inl rfl)
    (fun t ht => by rw [show startBoard.en_passant_target = none from rfl] at ht; cases ht)
    (castlingRightsOK_of_bounded startBoard rfl (by decide) (by decide))
    (by decide)

/-- C1 counterexample: `EP_WEIRD_FEN` parses; the legality filter run
exactly as the source runs it — in place on the live board, every
iteration seeing what the previous unmake left behind — completes
without error and returns the same list as the pure filter, because
the en-passant capture d4xe3 is the last pseudo-legal move tested;
that capture is in the returned list, `make_move` succeeds on it, yet
make followed by unmake does not restore the board: the black knight
that stood on the en-passant target square e3 is gone, as the final
live board confirms. -/
theorem c1_counterexample :
    (mkBoard EP_WEIRD_FEN).isOk = true ∧
    (get_legal_moves_live epWeirdBoard).map Prod.fst = some (get_legal_moves epWeirdBoard) ∧
    epWeirdMove ∈ get_legal_moves epWeirdBoard ∧
    (make_move epWeirdBoard epWeirdMove).isSome = true ∧
    (make_move epWeirdBoard epWeirdMove).map (fun b2 => observables (unmake_move b2)) ≠
      some (observables epWeirdBoard) ∧
    boardGet epWeirdBoard.board 20 = some ⟨KNIGHT, BLACK⟩ ∧
    (get_legal_moves_live epWeirdBoard).map (fun p => boardGet (p.2).board 20) =
      some none := by
  decide

/-- C4: the board built from the default starting FEN has exactly 20
legal moves for White — 8 single pawn pushes, 8 double pawn pushes and
4 knight moves — and after any one of them Black also has exactly 20
legal moves. -/
theorem c4_starting_position_move_counts :
    mkBoard STARTING_FEN = Except.ok startBoard ∧
    (get_legal_moves startBoard).length = 20 ∧
    ((get_legal_moves startBoard).filter fun m =>
      (((m.to_sq : Int) - (m.from_sq : Int)).natAbs == 8) &&
        (boardGet startBoard.board m.from_sq).any fun p => p.type == PAWN).length = 8 ∧
    ((get_legal_moves startBoard).filter fun m =>
      (((m.to_sq : Int) - (m.from_sq : Int)).natAbs == 16) &&
        (boardGet startBoard.board m.from_sq).any fun p => p.type == PAWN).length = 8 ∧
    ((get_legal_moves startBoard).filter fun m =>
      (boardGet startBoard.board m.from_sq).any fun p => p.type == KNIGHT).length = 4 ∧
    ((get_legal_moves startBoard).all fun m =>
      match make_move startBoard m with
      | some b2 => (get_legal_moves b2).length == 20
      | none => false) = true := by
  exact ⟨rfl, by decide⟩

/-- C5: after any legal move the en-passant target is the square the
pawn jumped over — the one directly behind the destination — exactly
when the move was a pawn double push, and absent otherwise. -/
theorem c5_en_passant_window (b : Board) (m : Move) (piece : Piece)
    (hlen : b.board.length = 64) (hm : m ∈ get_legal_moves b)
    (hpiece : boardGet b.board m.from_sq = some piece) :
    (make_move b m).map Board.en_passant_target =
      some (if piece.type = PAWN ∧ ((m.to_sq : Int) - (m.from_sq : Int)).natAbs = 16 then
        some ((m.from_sq + m.to_sq) / 2)
      else none) := by
  obtain ⟨piece2, hpiece2, hcolor, hflt, htlt, hne, hpromo, hepf, hcastf, hdbl⟩ :=
    mem_get_pseudo_legal_moves b m hlen (mem_get_legal_moves b m hm)
  rw [hpiece] at hpiece2
  obtain rfl : piece = piece2 := Option.some_inj.mp hpiece2
  simp only [make_move, hpiece]
  rw [if_neg (by rw [hcolor]; exact fun h => h rfl)]
  simp only [Option.map_some']
  congr 1
  by_cases hc : piece.type = PAWN ∧ ((m.to_sq : Int) - (m.from_sq : Int)).natAbs = 16
  · rw [if_pos hc, if_pos hc]
    obtain ⟨hwd, hbd⟩ := hdbl hc.1 hc.2
    by_cases hw : piece.color = WHITE
    · rw [if_pos hw]
      have := hwd hw
      congr 1
      omega
    · rw [if_neg hw]
      have := hbd hw
      congr 1
      omega
  · rw [if_neg hc, if_neg hc]

theorem c5_witness :
    (make_move startBoard e2e4Move).map Board.en_passant_target =
      some (if (⟨PAWN, WHITE⟩ : Piece).type = PAWN ∧
          ((e2e4Move.to_sq : Int) - (e2e4Move.from_sq : Int)).natAbs = 16 then
        some ((e2e4Move.from_sq + e2e4Move.to_sq) / 2)
      else none) :=
  c5_en_passant_window startBoard e2e4Move ⟨PAWN, WHITE⟩ rfl (by decide) (by decide)



/-- C3: `get_game_state` evaluates the terminal conditions in the fixed
priority order of the specification, and `get_outcome` returns the
color not to move exactly when the state is Checkmate and an absent
value for every draw state and while ongoing. -/
theorem c3_game_state_priority_and_outcome (b : Board) :
    get_game_state b = gameStateSpec b ∧
    get_outcome b =
      (if get_game_state b = CHECKMATE then some (if b.turn = WHITE then BLACK else WHITE)
       else none) := by
  constructor
  · simp only [get_game_state, gameStateSpec, is_checkmate, is_stalemate,
      is_fifty_move_rule, is_threefold_repetition, Bool.and_eq_true, beq_iff_eq,
      Bool.not_eq_true', decide_eq_true_eq, ge_iff_le]
  · by_cases hst : get_game_state b = CHECKMATE
    · simp only [get_outcome, hst, ite_true, if_true]
    · simp only [get_outcome, hst, ite_false, if_false, ite_self]



/-! ### C2: alpha-beta returns the minimax score -/

theorem KM_refl (v alpha beta : EInt) : KM v v alpha beta :=
  ⟨fun _ => le_rfl, fun _ => le_rfl, fun _ _ => rfl⟩

theorem mmMaxLoop_fst (child : Move → EInt) :
    ∀ (L : List Move) (best : EInt) (bm : Option Move),
    (mmMaxLoop child L best bm).1 = L.foldl (fun a mv => max a (child mv)) best := by
  intro L
  induction L with
  | nil => intro best bm; rfl
  | cons mv rest ih =>
    intro best bm
    simp only [mmMaxLoop, List.foldl_cons]
    by_cases h : best < child mv
    · rw [if_pos h, ih, max_eq_right h.le]
    · rw [if_neg h, ih, max_eq_left (not_lt.mp h)]

theorem mmMinLoop_fst (child : Move → EInt) :
    ∀ (L : List Move) (best : EInt) (bm : Option Move),
    (mmMinLoop child L best bm).1 = L.foldl (fun a mv => min a (child mv)) best := by
  intro L
  induction L with
  | nil => intro best bm; rfl
  | cons mv rest ih =>
    intro best bm
    simp only [mmMinLoop, List.foldl_cons]
    by_cases h : child mv < best
    · rw [if_pos h, ih, min_eq_right h.le]
    · rw [if_neg h, ih, min_eq_left (not_lt.mp h)]

theorem le_foldl_max (child : Move → EInt) :
    ∀ (L : List Move) (P : EInt), P ≤ L.foldl (fun a mv => max a (child mv)) P := by
  intro L
  induction L with
  | nil => intro P; exact le_rfl
  | cons mv rest ih =>
    intro P
    simp only [List.foldl_cons]
    exact le_trans (le_max_left P (child mv)) (ih (max P (child mv)))

theorem foldl_min_le (child : Move → EInt) :
    ∀ (L : List Move) (P : EInt), L.foldl (fun a mv => min a (child mv)) P ≤ P := by
  intro L
  induction L with
  | nil => intro P; exact le_rfl
  | cons mv rest ih =>
    intro P
    simp only [List.foldl_cons]
    exact le_trans (ih (min P (child mv))) (min_le_left P (child mv))

theorem abMaxLoop_KM (childAB : Move → EInt → EInt → EInt) (v : Move → EInt)
    (beta alpha0 : EInt) (hab : alpha0 < beta) :
    ∀ (L : List Move) (best : EInt) (bm : Option Move) (alpha P : EInt),
    alpha < beta → alpha = max alpha0 best → P ≤ best → best ≤ max alpha0 P →
    (∀ mv ∈ L, ∀ a, a < beta → KM (v mv) (childAB mv a beta) a beta) →
    KM (L.foldl (fun a mv => max a (v mv)) P) (abMaxLoop childAB L best bm alpha beta).1
      alpha0 beta := by
  intro L
  induction L with
  | nil =>
    intro best bm alpha P _ _ hPb hbP _
    refine ⟨fun _ => hPb, fun hβ => ?_, fun h1 _ => ?_⟩
    · rcases le_max_iff.mp hbP with h | h
      · exact absurd (lt_of_lt_of_le hab hβ) (not_lt.mpr h)
      · exact h
    · rcases le_max_iff.mp hbP with h | h
      · exact absurd h1 (not_lt.mpr h)
      · exact le_antisymm h hPb
  | cons mv rest ihL =>
    intro best bm alpha P hαβ hα hPb hbP hch
    simp only [abMaxLoop, List.foldl_cons]
    have hKMc := hch mv (List.mem_cons_self mv rest) alpha hαβ
    set s := childAB mv alpha beta with hs
    by_cases hcut : beta ≤ max alpha s
    · rw [if_pos hcut]
      have hsβ : beta ≤ s := by
        rcases le_max_iff.mp hcut with h | h
        · exact absurd (lt_of_lt_of_le hαβ h) (lt_irrefl alpha)
        · exact h
      have hsv : s ≤ v mv := hKMc.2.1 hsβ
      have hacc : (if best < s then (s, some mv) else (best, bm)).1 = max best s := by
        by_cases h : best < s
        · rw [if_pos h]; exact (max_eq_right h.le).symm
        · rw [if_neg h]; exact (max_eq_left (not_lt.mp h)).symm
      rw [hacc]
      have hT : max P (v mv) ≤ (rest.foldl (fun a mv => max a (v mv)) (max P (v mv))) :=
        le_foldl_max v rest (max P (v mv))
      refine ⟨fun h => ?_, fun _ => ?_, fun _ h2 => ?_⟩
      · exact absurd (le_trans (le_max_right best s) h)
          (not_le.mpr (lt_of_lt_of_le hab hsβ))
      · refine max_le ?_ (le_trans (le_trans hsv (le_max_right P (v mv))) hT)
        rcases le_max_iff.mp hbP with h | h
        · exact le_trans (le_trans (le_trans h (le_of_lt (lt_of_lt_of_le hab hsβ)))
            (le_trans hsv (le_max_right P (v mv)))) hT
        · exact le_trans (le_trans h (le_max_left P (v mv))) hT
      · exact absurd (lt_of_le_of_lt (le_max_right best s) h2) (not_lt.mpr hsβ)
    · rw [if_neg hcut]
      have hα2β : max alpha s < beta := not_le.mp hcut
      have hsv : s ≤ alpha ∨ s = v mv := by
        by_cases h1 : s ≤ alpha
        · exact Or.inl h1
        · exact Or.inr (hKMc.2.2 (not_le.mp h1)
            (lt_of_le_of_lt (le_max_right alpha s) hα2β))
      have hacc1 : (if best < s then (s, some mv) else (best, bm)).1 = max best s := by
        by_cases h : best < s
        · rw [if_pos h]; exact (max_eq_right h.le).symm
        · rw [if_neg h]; exact (max_eq_left (not_lt.mp h)).symm
      have hgoal := ihL (max best s) (if best < s then (s, some mv) else (best, bm)).2
        (max alpha s) (max P (v mv)) hα2β
        (by rw [hα, max_assoc])
        (by
          refine max_le (le_trans hPb (le_max_left best s)) ?_
          rcases hsv with h | h
          · exact le_trans (hKMc.1 h) (le_max_right best s)
          · exact h ▸ le_max_right best s)
        (by
          refine max_le ?_ ?_
          · exact le_trans hbP (max_le_max le_rfl (le_max_left P (v mv)))
          · rcases hsv with h | h
            · refine le_trans h ?_
              rw [hα]
              refine max_le (le_max_left alpha0 _) ?_
              exact le_trans hbP (max_le_max le_rfl (le_max_left P (v mv)))
            · exact le_trans (le_of_eq h) (le_trans (le_max_right P (v mv))
                (le_max_right alpha0 (max P (v mv)))))
        (fun mv2 hmv2 a ha => hch mv2 (List.mem_cons_of_mem mv hmv2) a ha)
      rw [hacc1]
      exact hgoal

theorem abMinLoop_KM (childAB : Move → EInt → EInt → EInt) (v : Move → EInt)
    (alpha beta0 : EInt) (hab : alpha < beta0) :
    ∀ (L : List Move) (best : EInt) (bm : Option Move) (beta P : EInt),
    alpha < beta → beta = min beta0 best → best ≤ P → min beta0 P ≤ best →
    (∀ mv ∈ L, ∀ bt, alpha < bt → KM (v mv) (childAB mv alpha bt) alpha bt) →
    KM (L.foldl (fun a mv => min a (v mv)) P) (abMinLoop childAB L best bm alpha beta).1
      alpha beta0 := by
  intro L
  induction L with
  | nil =>
    intro best bm beta P _ _ hbP hPb _
    refine ⟨fun hα => ?_, fun _ => hbP, fun _ h2 => ?_⟩
    · rcases min_le_iff.mp hPb with h | h
      · exact absurd (lt_of_lt_of_le hab (le_trans h hα)) (lt_irrefl alpha)
      · exact h
    · rcases min_le_iff.mp hPb with h | h
      · exact absurd h2 (not_lt.mpr h)
      · exact le_antisymm hbP h
  | cons mv rest ihL =>
    intro best bm beta P hαβ hβ hbP hPb hch
    simp only [abMinLoop, List.foldl_cons]
    have hKMc := hch mv (List.mem_cons_self mv rest) beta hαβ
    set s := childAB mv alpha beta with hs
    by_cases hcut : min beta s ≤ alpha
    · rw [if_pos hcut]
      have hsα : s ≤ alpha := by
        rcases min_le_iff.mp hcut with h | h
        · exact absurd (lt_of_lt_of_le hαβ h) (lt_irrefl alpha)
        · exact h
      have hsv : v mv ≤ s := hKMc.1 hsα
      have hacc : (if s < best then (s, some mv) else (best, bm)).1 = min best s := by
        by_cases h : s < best
        · rw [if_pos h]; exact (min_eq_right h.le).symm
        · rw [if_neg h]; exact (min_eq_left (not_lt.mp h)).symm
      rw [hacc]
      have hT : (rest.foldl (fun a mv => min a (v mv)) (min P (v mv))) ≤ min P (v mv) :=
        foldl_min_le v rest (min P (v mv))
      refine ⟨fun _ => ?_, fun h => ?_, fun h1 _ => ?_⟩
      · refine le_min ?_ (le_trans hT (le_trans (min_le_right P (v mv)) hsv))
        have hTs : (rest.foldl (fun a mv => min a (v mv)) (min P (v mv))) ≤ s :=
          le_trans hT (le_trans (min_le_right P (v mv)) hsv)
        rcases min_le_iff.mp hPb with h | h
        · exact le_trans hTs (le_of_lt (lt_of_le_of_lt hsα (lt_of_lt_of_le hab h)))
        · exact le_trans hT (le_trans (min_le_left P (v mv)) h)
      · exact absurd (le_trans h (le_trans (min_le_right best s) hsα))
          (not_le.mpr hab)
      · exact absurd (lt_of_lt_of_le h1 (le_trans (min_le_right best s) hsα))
          (lt_irrefl alpha)
    · rw [if_neg hcut]
      have hβ2α : alpha < min beta s := not_le.mp hcut
      have hsv : beta ≤ s ∨ s = v mv := by
        by_cases h1 : beta ≤ s
        · exact Or.inl h1
        · exact Or.inr (hKMc.2.2 (lt_of_lt_of_le hβ2α (min_le_right beta s))
            (not_le.mp h1))
      have hacc1 : (if s < best then (s, some mv) else (best, bm)).1 = min best s := by
        by_cases h : s < best
        · rw [if_pos h]; exact (min_eq_right h.le).symm
        · rw [if_neg h]; exact (min_eq_left (not_lt.mp h)).symm
      have hgoal := ihL (min best s) (if s < best then (s, some mv) else (best, bm)).2
        (min beta s) (min P (v mv)) hβ2α
        (by rw [hβ, min_assoc])
        (by
          refine le_min (le_trans (min_le_left best s) hbP) ?_
          rcases hsv with h | h
          · exact le_trans (min_le_right best s) (hKMc.2.1 h)
          · exact h ▸ min_le_right best s)
        (by
          refine le_min ?_ ?_
          · exact le_trans (min_le_min le_rfl (min_le_left P (v mv))) hPb
          · rcases hsv with h | h
            · rw [hβ] at h
              refine le_trans ?_ h
              exact le_min (min_le_left beta0 _)
                (le_trans (min_le_min le_rfl (min_le_left P (v mv))) hPb)
            · exact le_trans (min_le_right beta0 (min P (v mv)))
                (le_trans (min_le_right P (v mv)) (le_of_eq h.symm)))
        (fun mv2 hmv2 bt hbt => hch mv2 (List.mem_cons_of_mem mv hmv2) bt hbt)
      rw [hacc1]
      exact hgoal

theorem foldl_max_finite (child : Move → EInt) :
    ∀ (L : List Move) (P : EInt), (∀ mv ∈ L, FiniteE (child mv)) →
    (FiniteE P ∨ (P = ⊥ ∧ L ≠ [])) →
    FiniteE (L.foldl (fun a mv => max a (child mv)) P) := by
  intro L
  induction L with
  | nil =>
    intro P _ hP
    rcases hP with h | ⟨-, h⟩
    · exact h
    · exact absurd rfl h
  | cons mv rest ih =>
    intro P hch hP
    simp only [List.foldl_cons]
    refine ih (max P (child mv)) (fun m hm => hch m (List.mem_cons_of_mem mv hm)) (Or.inl ?_)
    rcases hP with ⟨z, hz⟩ | ⟨hbot, -⟩
    · rcases max_choice P (child mv) with h | h
      · exact ⟨z, h.trans hz⟩
      · rw [h]; exact hch mv (List.mem_cons_self mv rest)
    · rw [hbot, max_eq_right bot_le]
      exact hch mv (List.mem_cons_self mv rest)

theorem foldl_min_finite (child : Move → EInt) :
    ∀ (L : List Move) (P : EInt), (∀ mv ∈ L, FiniteE (child mv)) →
    (FiniteE P ∨ (P = ⊤ ∧ L ≠ [])) →
    FiniteE (L.foldl (fun a mv => min a (child mv)) P) := by
  intro L
  induction L with
  | nil =>
    intro P _ hP
    rcases hP with h | ⟨-, h⟩
    · exact h
    · exact absurd rfl h
  | cons mv rest ih =>
    intro P hch hP
    simp only [List.foldl_cons]
    refine ih (min P (child mv)) (fun m hm => hch m (List.mem_cons_of_mem mv hm)) (Or.inl ?_)
    rcases hP with ⟨z, hz⟩ | ⟨htop, -⟩
    · rcases min_choice P (child mv) with h | h
      · exact ⟨z, h.trans hz⟩
      · rw [h]; exact hch mv (List.mem_cons_self mv rest)
    · rw [htop, min_eq_right le_top]
      exact hch mv (List.mem_cons_self mv rest)

theorem minimax_fst_finite : ∀ (d : Nat) (b : Board) (maxi : Bool),
    FiniteE (minimax b d maxi).1 := by
  intro d
  induction d with
  | zero => intro b maxi; exact ⟨evaluate_board b, rfl⟩
  | succ d ih =>
    intro b maxi
    simp only [minimax]
    by_cases hov : is_game_over b = true
    · simp only [hov, ite_true, if_true]
      exact ⟨evaluate_board b, rfl⟩
    · simp only [eq_false hov, ite_false, if_false]
      by_cases hleg : get_legal_moves b = []
      · simp only [hleg, ite_true, if_true]
        exact ⟨evaluate_board b, rfl⟩
      · simp only [eq_false hleg, ite_false, if_false]
        cases maxi with
        | true =>
          rw [if_pos rfl, mmMaxLoop_fst]
          exact foldl_max_finite _ _ _ (fun mv _ => ih (childBoard b mv) false)
            (Or.inr ⟨rfl, hleg⟩)
        | false =>
          rw [if_neg Bool.false_ne_true, mmMinLoop_fst]
          exact foldl_min_finite _ _ _ (fun mv _ => ih (childBoard b mv) true)
            (Or.inr ⟨rfl, hleg⟩)

theorem alphabeta_minimax_KM : ∀ (d : Nat) (b : Board) (alpha beta : EInt) (maxi : Bool),
    alpha < beta →
    KM (minimax b d maxi).1 (alphabeta b d alpha beta maxi).1 alpha beta := by
  intro d
  induction d with
  | zero => intro b alpha beta maxi _; exact KM_refl _ _ _
  | succ d ih =>
    intro b alpha beta maxi hαβ
    simp only [minimax, alphabeta]
    by_cases hov : is_game_over b = true
    · simp only [hov, ite_true, if_true]
      exact KM_refl _ _ _
    · simp only [eq_false hov, ite_false, if_false]
      by_cases hleg : get_legal_moves b = []
      · simp only [hleg, ite_true, if_true]
        exact KM_refl _ _ _
      · simp only [eq_false hleg, ite_false, if_false]
        have hperm : List.Perm (orderCapturesFirst (get_legal_moves b))
            (get_legal_moves b) :=
          List.filter_append_perm _ (get_legal_moves b)
        cases maxi with
        | true =>
          rw [if_pos rfl, if_pos rfl, mmMaxLoop_fst]
          have hfold : (get_legal_moves b).foldl
              (fun a mv => max a ((minimax (childBoard b mv) d false).1)) ⊥ =
              (orderCapturesFirst (get_legal_moves b)).foldl
              (fun a mv => max a ((minimax (childBoard b mv) d false).1)) ⊥ :=
            haveI : RightCommutative
                (fun (a : EInt) mv => max a ((minimax (childBoard b mv) d false).1)) :=
              ⟨fun a x y => Max.right_comm a _ _⟩
            (hperm.foldl_eq ⊥).symm
          rw [hfold]
          exact abMaxLoop_KM _ _ beta alpha hαβ _ ⊥ none alpha ⊥ hαβ
            (max_eq_left bot_le).symm le_rfl bot_le
            (fun mv _ a ha => ih (childBoard b mv) a beta false ha)
        | false =>
          rw [if_neg Bool.false_ne_true, if_neg Bool.false_ne_true, mmMinLoop_fst]
          have hfold : (get_legal_moves b).foldl
              (fun a mv => min a ((minimax (childBoard b mv) d true).1)) ⊤ =
              (orderCapturesFirst (get_legal_moves b)).foldl
              (fun a mv => min a ((minimax (childBoard b mv) d true).1)) ⊤ :=
            haveI : RightCommutative
                (fun (a : EInt) mv => min a ((minimax (childBoard b mv) d true).1)) :=
              ⟨fun a x y => min_right_comm a _ _⟩
            (hperm.foldl_eq ⊤).symm
          rw [hfold]
          exact abMinLoop_KM _ _ alpha beta hαβ _ ⊤ none beta ⊤ hαβ
            (min_eq_left le_top).symm le_rfl le_top
            (fun mv _ bt hbt => ih (childBoard b mv) alpha bt true hbt)

/-- C2: at equal depth from the same position, the alpha-beta search over the
full window returns exactly the minimax score, even though it prunes branches
and orders captures first. -/
theorem c2_alphabeta_score_equals_minimax (b : Board) (depth : Nat)
    (maximizing_player : Bool) :
    (alphabeta b depth ⊥ ⊤ maximizing_player).1 = (minimax b depth maximizing_player).1 := by
  obtain ⟨z, hz⟩ := minimax_fst_finite depth b maximizing_player
  have hKM := alphabeta_minimax_KM depth b ⊥ ⊤ maximizing_player bot_lt_top
  by_cases h1 : (alphabeta b depth ⊥ ⊤ maximizing_player).1 ≤ ⊥
  · exfalso
    have hv := hKM.1 h1
    have hb : (minimax b depth maximizing_player).1 = ⊥ := le_bot_iff.mp (hv.trans h1)
    rw [hz] at hb
    exact WithBot.coe_ne_bot hb
  · by_cases h2 : (⊤ : EInt) ≤ (alphabeta b depth ⊥ ⊤ maximizing_player).1
    · exfalso
      have hv := hKM.2.1 h2
      have ht : (minimax b depth maximizing_player).1 = ⊤ := top_le_iff.mp (h2.trans hv)
      rw [hz, ← WithBot.coe_top, WithBot.coe_inj] at ht
      exact WithTop.coe_ne_top ht
    · exact hKM.2.2 (not_le.mp h1) (not_le.mp h2)


/-! ### C6: FEN parsing and its error behavior -/

theorem parseBoardChars_err :
    ∀ (cs : List Char) (rank file : Int) (bd : List (Option Piece)),
    (∃ c ∈ cs, c ≠ '/' ∧ c.isDigit = false ∧ pieceOfChar c = none) →
    ∃ e, parseBoardChars cs rank file bd = Except.error e := by
  intro cs
  induction cs with
  | nil => intro _ _ _ ⟨c, hc, _⟩; exact absurd hc (List.not_mem_nil c)
  | cons c0 rest ih =>
    intro rank file bd ⟨c, hc, hslash, hdig, hpc⟩
    rcases List.mem_cons.mp hc with rfl | hcr
    · rw [parseBoardChars, if_neg hslash, if_neg (by simp [hdig]), hpc]
      exact ⟨FenErr.valueError "Invalid piece character in FEN", rfl⟩
    · rw [parseBoardChars]
      by_cases h0 : c0 = '/'
      · rw [if_pos h0]; exact ih _ _ _ ⟨c, hcr, hslash, hdig, hpc⟩
      · rw [if_neg h0]
        by_cases h1 : c0.isDigit = true
        · rw [if_pos h1]; exact ih _ _ _ ⟨c, hcr, hslash, hdig, hpc⟩
        · rw [if_neg h1]
          cases hpc0 : pieceOfChar c0 with
          | none =>
            dsimp only
            exact ⟨FenErr.valueError "Invalid piece character in FEN", rfl⟩
          | some pt =>
            dsimp only
            cases hset : pyListSet bd (rank * 8 + file)
                (some ⟨pt, if c0.isUpper then WHITE else BLACK⟩) with
            | ok bd2 =>
              dsimp only
              exact ih _ _ _ ⟨c, hcr, hslash, hdig, hpc⟩
            | error e => exact ⟨e, rfl⟩

/-- C6 (amended): construction from a FEN string raises the six-part
ValueError when the field count is not 6; an unrecognized piece letter in
the placement field always aborts construction with some error, though
possibly an IndexError rather than a ValueError; with a parsed placement,
a malformed en-passant, half-move clock, or full-move number field raises
the documented ValueError, in source order; and the starting FEN succeeds
and sets up exactly the starting position. -/
theorem c6_fen_error_handling :
    (∀ fen : String, (pySplitSpace fen.toList []).length ≠ 6 →
      mkBoard fen = Except.error (FenErr.valueError "Invalid FEN string: must have 6 parts")) ∧
    (∀ fen : String, ∀ c ∈ ((pySplitSpace fen.toList []).getD 0 "").toList,
      c ≠ '/' → c.isDigit = false → pieceOfChar c = none →
      ∃ e, mkBoard fen = Except.error e) ∧
    (∀ fen : String, ∀ bd : List (Option Piece),
      (pySplitSpace fen.toList []).length = 6 →
      parseBoardChars ((pySplitSpace fen.toList []).getD 0 "").toList 7 0
        (List.replicate 64 none) = Except.ok bd →
      (pySplitSpace fen.toList []).getD 3 "" ≠ "-" →
      (∃ e, square_to_index ((pySplitSpace fen.toList []).getD 3 "") = Except.error e) →
      mkBoard fen = Except.error (FenErr.valueError "Invalid en passant target square in FEN")) ∧
    (∀ fen : String, ∀ bd : List (Option Piece),
      (pySplitSpace fen.toList []).length = 6 →
      parseBoardChars ((pySplitSpace fen.toList []).getD 0 "").toList 7 0
        (List.replicate 64 none) = Except.ok bd →
      ((pySplitSpace fen.toList []).getD 3 "" = "-" ∨
        ∃ i, square_to_index ((pySplitSpace fen.toList []).getD 3 "") = Except.ok i) →
      pyInt ((pySplitSpace fen.toList []).getD 4 "") = none →
      mkBoard fen = Except.error (FenErr.valueError "Invalid halfmove clock in FEN")) ∧
    (∀ fen : String, ∀ bd : List (Option Piece),
      (pySplitSpace fen.toList []).length = 6 →
      parseBoardChars ((pySplitSpace fen.toList []).getD 0 "").toList 7 0
        (List.replicate 64 none) = Except.ok bd →
      ((pySplitSpace fen.toList []).getD 3 "" = "-" ∨
        ∃ i, square_to_index ((pySplitSpace fen.toList []).getD 3 "") = Except.ok i) →
      (∃ n, pyInt ((pySplitSpace fen.toList []).getD 4 "") = some n) →
      pyInt ((pySplitSpace fen.toList []).getD 5 "") = none →
      mkBoard fen = Except.error (FenErr.valueError "Invalid fullmove number in FEN")) ∧
    (mkBoard STARTING_FEN = Except.ok startBoard ∧
     startBoard.board = startPlacement ∧ startBoard.turn = WHITE ∧
     startBoard.castling_rights = ALL_CASTLING ∧ startBoard.en_passant_target = none ∧
     startBoard.halfmove_clock = 0 ∧ startBoard.fullmove_number = 1) := by
  refine ⟨?_, ?_, ?_, ?_, ?_, ?_⟩
  · intro fen h
    simp only [mkBoard, _setup_from_fen]
    rw [if_pos h]
    rfl
  · intro fen c hc h1 h2 h3
    obtain ⟨e, he⟩ := parseBoardChars_err _ 7 0 (List.replicate 64 none) ⟨c, hc, h1, h2, h3⟩
    by_cases hlen : (pySplitSpace fen.toList []).length = 6
    · refine ⟨e, ?_⟩
      simp only [mkBoard, _setup_from_fen]
      rw [if_neg (not_not_intro hlen), he]
      rfl
    · refine ⟨FenErr.valueError "Invalid FEN string: must have 6 parts", ?_⟩
      simp only [mkBoard, _setup_from_fen]
      rw [if_pos hlen]
      rfl
  · intro fen bd hlen hbd hne ⟨e3, he3⟩
    simp only [mkBoard, _setup_from_fen]
    rw [if_neg (not_not_intro hlen), hbd]
    dsimp only
    rw [if_pos hne, he3]
    rfl
  · intro fen bd hlen hbd hep h4
    simp only [mkBoard, _setup_from_fen]
    rw [if_neg (not_not_intro hlen), hbd]
    dsimp only
    by_cases hd : (pySplitSpace fen.toList []).getD 3 "" = "-"
    · rw [if_neg (not_not_intro hd)]
      dsimp only
      rw [h4]
      rfl
    · rcases hep with hdash | ⟨i, hi⟩
      · exact absurd hdash hd
      · rw [if_pos hd, hi]
        dsimp only
        rw [h4]
        rfl
  · intro fen bd hlen hbd hep ⟨n, hn⟩ h5
    simp only [mkBoard, _setup_from_fen]
    rw [if_neg (not_not_intro hlen), hbd]
    dsimp only
    by_cases hd : (pySplitSpace fen.toList []).getD 3 "" = "-"
    · rw [if_neg (not_not_intro hd)]
      dsimp only
      rw [hn]
      dsimp only
      rw [h5]
      rfl
    · rcases hep with hdash | ⟨i, hi⟩
      · exact absurd hdash hd
      · rw [if_pos hd, hi]
        dsimp only
        rw [hn]
        dsimp only
        rw [h5]
        rfl
  · exact ⟨rfl, by decide, rfl, rfl, rfl, rfl, rfl⟩

/-- C6 witness: a FEN with a malformed en-passant field e9 raises the
en-passant ValueError, through the theorem at that concrete input. -/
theorem c6_witness :
    mkBoard "rnbqkbnr/pppppppp/8/8/8/8/PPPPPPPP/RNBQKBNR w KQkq e9 0 1" =
      Except.error (FenErr.valueError "Invalid en passant target square in FEN") :=
  c6_fen_error_handling.2.2.1 "rnbqkbnr/pppppppp/8/8/8/8/PPPPPPPP/RNBQKBNR w KQkq e9 0 1"
    startPlacement (by decide) rfl (by decide)
    ⟨FenErr.valueError "Invalid square name", rfl⟩

/-- C6 counterexample: this FEN contains the unrecognized piece letter z in
its placement field, yet construction raises IndexError, not ValueError: the
ninth pawn of the first rank is assigned to out-of-range square index 64
before the letter z is ever examined. -/
theorem c6_counterexample :
    mkBoard "pppppppppz/8/8/8/8/8/8/8 w - - 0 1" = Except.error FenErr.indexError ∧
    ('z' ∈ ((pySplitSpace ("pppppppppz/8/8/8/8/8/8/8 w - - 0 1").toList []).getD 0 "").toList ∧
      'z' ≠ '/' ∧ ('z').isDigit = false ∧ pieceOfChar 'z' = none) ∧
    ∀ msg, FenErr.indexError ≠ FenErr.valueError msg :=
  ⟨rfl, by decide, fun msg h => FenErr.noConfusion h⟩


/-! ### C8 and C10: the reinforcement-learning experiment -/

/-- C8 (amended): epsilon decay behavior of the agent. -/
theorem c8_epsilon_decay_per_step :
    initAgent.epsilon = 1 ∧
    (∀ (ag : Agent) (s : StepData), rl_epsilon_min < ag.epsilon →
      (learn ag s).epsilon = ag.epsilon * rl_epsilon_decay) ∧
    (∀ (ag : Agent) (s : StepData), ag.epsilon ≤ rl_epsilon_min →
      (learn ag s).epsilon = ag.epsilon) ∧
    (∀ (steps : List StepData) (ag : Agent),
      min ag.epsilon (rl_epsilon_decay * rl_epsilon_min) ≤ (runEpisode ag steps).epsilon) ∧
    (∀ (steps : List StepData) (ag : Agent),
      (∀ k < steps.length, rl_epsilon_min < ag.epsilon * rl_epsilon_decay ^ k) →
      (runEpisode ag steps).epsilon = ag.epsilon * rl_epsilon_decay ^ steps.length) := by
  refine ⟨rfl, ?_, ?_, ?_, ?_⟩
  · intro ag s h
    simp only [learn, if_pos h]
  · intro ag s h
    simp only [learn, if_neg (not_lt.mpr h)]
  · intro steps
    induction steps with
    | nil => intro ag; exact min_le_left _ _
    | cons s rest ih =>
      intro ag
      refine le_trans ?_ (ih (learn ag s))
      simp only [learn]
      by_cases h : rl_epsilon_min < ag.epsilon
      · rw [if_pos h]
        refine le_min ?_ (min_le_right _ _)
        calc min ag.epsilon (rl_epsilon_decay * rl_epsilon_min)
            ≤ rl_epsilon_decay * rl_epsilon_min := min_le_right _ _
          _ = rl_epsilon_min * rl_epsilon_decay := mul_comm _ _
          _ ≤ ag.epsilon * rl_epsilon_decay := by
              refine mul_le_mul_of_nonneg_right (le_of_lt h) (by norm_num [rl_epsilon_decay])
      · rw [if_neg h]
  · intro steps
    induction steps with
    | nil => intro ag _; simp [runEpisode]
    | cons s rest ih =>
      intro ag hk
      have h0 : rl_epsilon_min < ag.epsilon := by
        have := hk 0 (Nat.succ_pos _)
        simpa using this
      have hstep : (learn ag s).epsilon = ag.epsilon * rl_epsilon_decay := by
        simp only [learn, if_pos h0]
      have hrec : (runEpisode (learn ag s) rest).epsilon =
          (learn ag s).epsilon * rl_epsilon_decay ^ rest.length := by
        refine ih (learn ag s) ?_
        intro k hklt
        rw [hstep, mul_assoc, ← pow_succ']
        exact hk (k + 1) (Nat.succ_lt_succ hklt)
      show (runEpisode (learn ag s) rest).epsilon = _
      rw [hrec, hstep, mul_assoc, ← pow_succ']
      rfl

/-- C8 witness: a one-step episode from the initial agent multiplies
epsilon by the decay factor exactly once. -/
theorem c8_witness :
    (runEpisode initAgent [⟨0, 0, 0, 0, true⟩]).epsilon =
      initAgent.epsilon * rl_epsilon_decay ^ 1 :=
  c8_epsilon_decay_per_step.2.2.2.2 [⟨0, 0, 0, 0, true⟩] initAgent
    (by norm_num [Nat.lt_one_iff, initAgent, rl_epsilon_min, rl_epsilon_decay])

/-- C8 counterexample: one training episode of two environment steps
multiplies epsilon twice, so the decay is per step, not per episode. -/
theorem c8_counterexample :
    (runEpisode initAgent [⟨0, 0, 0, 0, false⟩, ⟨0, 0, 0, 0, true⟩]).epsilon = 39601 / 40000 ∧
    ((39601 : ℚ) / 40000) ≠ initAgent.epsilon * rl_epsilon_decay := by
  constructor
  · simp only [runEpisode, List.foldl_cons, List.foldl_nil]
    norm_num [learn, initAgent, rl_epsilon_min, rl_epsilon_decay]
  · norm_num [initAgent, rl_epsilon_min, rl_epsilon_decay]

/-- C10: with at least one legal move, the decoded action is always a
member of the legal-move list and the illegal-action branch of step is
off. -/
theorem c10_action_always_legal {α : Type} [DecidableEq α] (moves : List α) (action : Int)
    (h : moves ≠ []) :
    (∃ mv, _action_to_move moves action = some mv) ∧
    (∀ mv, _action_to_move moves action = some mv → mv ∈ moves) ∧
    stepIllegalBranch moves action = false := by
  match moves with
  | [] => exact absurd rfl h
  | m :: rest =>
    have hmem : (m :: rest).getD ((action % (((m :: rest).length : Nat) : Int)).toNat) m ∈
        m :: rest := by
      have hlen : (0 : Int) < ((m :: rest).length : Nat) := by
        exact_mod_cast Nat.succ_pos rest.length
      have hnonneg : 0 ≤ action % (((m :: rest).length : Nat) : Int) :=
        Int.emod_nonneg action (ne_of_gt hlen)
      have hlt : action % (((m :: rest).length : Nat) : Int) < ((m :: rest).length : Nat) :=
        Int.emod_lt_of_pos action hlen
      have hidx : (action % (((m :: rest).length : Nat) : Int)).toNat < (m :: rest).length := by
        omega
      rw [List.getD_eq_getElem _ _ hidx]
      exact List.getElem_mem hidx
    refine ⟨⟨_, rfl⟩, ?_, ?_⟩
    · intro mv hmv
      exact (Option.some.inj hmv) ▸ hmem
    · show (!((m :: rest).contains _)) = false
      have hc : (m :: rest).contains
          ((m :: rest).getD ((action % (((m :: rest).length : Nat) : Int)).toNat) m) = true :=
        List.elem_eq_true_of_mem hmem
      rw [hc]
      rfl

/-- C10 witness: a negative action index on a three-move list decodes to a
legal move and the illegal branch stays off. -/
theorem c10_witness :
    ([0, 1, 2] : List Nat) ≠ [] ∧ stepIllegalBranch ([0, 1, 2] : List Nat) (-7) = false :=
  ⟨by decide, (c10_action_always_legal ([0, 1, 2] : List Nat) (-7) (by decide)).2.2⟩


/-! ### C7 and C9: the pygame subsystem -/

/-- C7 (amended): for a NON-KING mover that passes the basic rejections,
is_valid_move permits the move exactly when the speculative application
leaves the moving side in safety, as computed by
will_be_in_check_after_move; for the king itself the two disagree
because the source computes king_pos but never uses it. -/
theorem c7_nonking_valid_iff_safe (bb : B.ChessBoard) (s e : Int × Int) (piece : String)
    (hp : B.boardRead bb.board s = some piece)
    (hturn : (bb.current_turn = "white" ∧ B.pyChar piece 0 = 'w') ∨
      (bb.current_turn = "black" ∧ B.pyChar piece 0 = 'b'))
    (he : B.onBoard e)
    (htgt : (match B.boardRead bb.board e with
             | some t => B.pyChar t 0 == B.pyChar piece 0
             | none => false : Bool) = false)
    (hk : piece ≠ "wK" ∧ piece ≠ "bK") :
    B.is_valid_move bb s e = !(B.will_be_in_check_after_move bb s e) := by
  have hturn_ne : ¬ ((bb.current_turn = "white" ∧ B.pyChar piece 0 ≠ 'w') ∨
      (bb.current_turn = "black" ∧ B.pyChar piece 0 ≠ 'b')) := by
    rcases hturn with ⟨ht, hc⟩ | ⟨ht, hc⟩ <;>
      rintro (⟨ht2, hc2⟩ | ⟨ht2, hc2⟩) <;> first
        | exact hc2 hc
        | (rw [ht] at ht2; exact absurd ht2 (by decide))
  have hcolor : (if B.pyChar piece 0 = 'w' then "white" else "black") = bb.current_turn := by
    rcases hturn with ⟨ht, hc⟩ | ⟨ht, hc⟩
    · rw [if_pos hc, ht]
    · rw [if_neg (by rw [hc]; decide), ht]
  simp only [B.is_valid_move, B.will_be_in_check_after_move, hp]
  rw [if_neg hturn_ne, if_neg (not_not_intro he)]
  rw [if_neg (by simp [htgt])]
  rw [if_neg hk.1, if_neg hk.2, hcolor]

/-- C7 witness: the opening knight move g1 to f3, a non-king mover on
the starting position, through the theorem at that concrete input. -/
theorem c7_witness :
    B.is_valid_move B.initChessBoard (7, 6) (5, 5) =
      !(B.will_be_in_check_after_move B.initChessBoard (7, 6) (5, 5)) :=
  c7_nonking_valid_iff_safe B.initChessBoard (7, 6) (5, 5) "wN" rfl
    (Or.inl ⟨rfl, rfl⟩) (by decide) rfl ⟨by decide, by decide⟩

/-- C7 counterexample: a king move that passes every basic rejection and
leaves the king in check, yet is_valid_move permits it: the speculative
check consults the stale tracked king square e1, which the rook on f8
does not attack, while the landing square f1 is attacked. -/
theorem c7_counterexample :
    B.boardRead B.c7Board.board (7, 4) = some "wK" ∧
    B.c7Board.current_turn = "white" ∧ B.pyChar "wK" 0 = 'w' ∧
    B.onBoard ((7 : Int), (5 : Int)) ∧ B.boardRead B.c7Board.board (7, 5) = none ∧
    B.is_valid_move B.c7Board (7, 4) (7, 5) = true ∧
    B.will_be_in_check_after_move B.c7Board (7, 4) (7, 5) = true ∧
    (∃ bb2, B.move_piece B.c7Board (7, 4) (7, 5) = some bb2 ∧
      B.is_in_check bb2 "white" = true) := by
  refine ⟨rfl, rfl, rfl, by decide, rfl, by decide, by decide, ⟨_, rfl, by decide⟩⟩

/-- Every element of the eight-neighbor part of King.get_valid_moves is
one of the eight offset squares. -/
theorem mem_kingNeighbors (bb : B.ChessBoard) (color : String) (pos q : Int × Int)
    (h : q ∈ ([((-1 : Int), (-1 : Int)), (-1, 0), (-1, 1), (0, -1), (0, 1), (1, -1), (1, 0),
        (1, 1)].flatMap
      (fun d =>
        let q2 : Int × Int := (pos.1 + d.1, pos.2 + d.2)
        if B.onBoard q2 then
          match B.get_piece_at bb.board q2 with
          | none => [q2]
          | some t => if B.pyChar t 0 ≠ B.pyChar color 0 then [q2] else []
        else []))) :
    ∃ d ∈ ([((-1 : Int), (-1 : Int)), (-1, 0), (-1, 1), (0, -1), (0, 1), (1, -1), (1, 0),
        (1, 1)] : List (Int × Int)), q = (pos.1 + d.1, pos.2 + d.2) := by
  rw [List.mem_flatMap] at h
  obtain ⟨d, hd, hq⟩ := h
  refine ⟨d, hd, ?_⟩
  dsimp only at hq
  split at hq
  · split at hq
    · exact List.mem_singleton.mp hq
    · split at hq
      · exact List.mem_singleton.mp hq
      · exact absurd hq (List.not_mem_nil q)
  · exact absurd hq (List.not_mem_nil q)

/-- C9: moving a rook from its home corner permanently bars castling on
that side. -/
theorem c9_rook_flags_bar_castling :
    (∀ (bb bb2 : B.ChessBoard) (s e : Int × Int), B.move_piece bb s e = some bb2 →
      (bb.white_rights.king_moved = true → bb2.white_rights.king_moved = true) ∧
      (bb.white_rights.left_rook_moved = true → bb2.white_rights.left_rook_moved = true) ∧
      (bb.white_rights.right_rook_moved = true → bb2.white_rights.right_rook_moved = true) ∧
      (bb.black_rights.king_moved = true → bb2.black_rights.king_moved = true) ∧
      (bb.black_rights.left_rook_moved = true → bb2.black_rights.left_rook_moved = true) ∧
      (bb.black_rights.right_rook_moved = true → bb2.black_rights.right_rook_moved = true)) ∧
    (∀ (bb bb2 : B.ChessBoard) (e : Int × Int),
      B.boardRead bb.board (7, 0) = some "wR" → B.move_piece bb (7, 0) e = some bb2 →
      bb2.white_rights.left_rook_moved = true) ∧
    (∀ (bb bb2 : B.ChessBoard) (e : Int × Int),
      B.boardRead bb.board (7, 7) = some "wR" → B.move_piece bb (7, 7) e = some bb2 →
      bb2.white_rights.right_rook_moved = true) ∧
    (∀ (bb bb2 : B.ChessBoard) (e : Int × Int),
      B.boardRead bb.board (0, 0) = some "bR" → B.move_piece bb (0, 0) e = some bb2 →
      bb2.black_rights.left_rook_moved = true) ∧
    (∀ (bb bb2 : B.ChessBoard) (e : Int × Int),
      B.boardRead bb.board (0, 7) = some "bR" → B.move_piece bb (0, 7) e = some bb2 →
      bb2.black_rights.right_rook_moved = true) ∧
    (∀ (bb : B.ChessBoard) (color : String) (row : Int),
      ((B.rightsOf bb color).left_rook_moved = true →
        (row, (2 : Int)) ∉ B.kingValidMoves bb color (row, 4)) ∧
      ((B.rightsOf bb color).right_rook_moved = true →
        (row, (6 : Int)) ∉ B.kingValidMoves bb color (row, 4))) := by
  refine ⟨?_, ?_, ?_, ?_, ?_, ?_⟩
  · intro bb bb2 s e h
    cases hp : B.boardRead bb.board s with
    | none => rw [B.move_piece, hp] at h; exact absurd h (by simp)
    | some piece =>
      rw [B.move_piece, hp] at h
      have hb := Option.some.inj h
      subst hb
      refine ⟨?_, ?_, ?_, ?_, ?_, ?_⟩ <;> intro hflag <;> dsimp only <;>
        split_ifs <;> simp_all
  · intro bb bb2 e hp h
    rw [B.move_piece, hp] at h
    have hb := Option.some.inj h
    subst hb
    dsimp only
    split_ifs <;> simp_all
  · intro bb bb2 e hp h
    rw [B.move_piece, hp] at h
    have hb := Option.some.inj h
    subst hb
    dsimp only
    split_ifs <;> simp_all
  · intro bb bb2 e hp h
    rw [B.move_piece, hp] at h
    have hb := Option.some.inj h
    subst hb
    dsimp only
    split_ifs <;> simp_all
  · intro bb bb2 e hp h
    rw [B.move_piece, hp] at h
    have hb := Option.some.inj h
    subst hb
    dsimp only
    split_ifs <;> simp_all
  · intro bb color row
    constructor <;> intro hflag hmem <;>
      simp only [B.kingValidMoves, List.mem_append] at hmem <;>
      rcases hmem with hbase | hcast
    · obtain ⟨d, hd, hq⟩ := mem_kingNeighbors bb color (row, 4) _ hbase
      fin_cases hd <;> simp_all
    · rw [hflag] at hcast
      split_ifs at hcast <;> simp_all
    · obtain ⟨d, hd, hq⟩ := mem_kingNeighbors bb color (row, 4) _ hbase
      fin_cases hd <;> simp_all
    · rw [hflag] at hcast
      split_ifs at hcast <;> simp_all

/-- C9 witness: after the rook move a1 to a3 on the starting position the
queenside flag is set and the castling destination c1 is no longer
offered for the white king on e1. -/
theorem c9_witness :
    ∃ bb2 : B.ChessBoard, B.move_piece B.initChessBoard (7, 0) (5, 0) = some bb2 ∧
      bb2.white_rights.left_rook_moved = true ∧
      ((7 : Int), (2 : Int)) ∉ B.kingValidMoves bb2 "white" (7, 4) := by
  refine ⟨_, rfl, ?_, ?_⟩
  · exact c9_rook_flags_bar_castling.2.1 B.initChessBoard _ (5, 0) rfl rfl
  · exact (c9_rook_flags_bar_castling.2.2.2.2.2 _ "white" 7).1 rfl

end Chess
